import Mathlib

/-!
# Verification of the hirecre ingestion and alerting core

A shallow embedding of the job-board sync and saved-search alert scripts:

* `scripts/sync-greenhouse.mjs` (the variant also carrying `parseLocationUS`,
  `src/unnamed/part_014`): text normalisation, pay extraction, location
  parsing, fingerprints, the upsert engine and the staleness sweep;
* `scripts/run-saved-search-alerts.mjs`: the saved-search predicate
  `jobMatches`, the delivery ledger cycle and the delivery dispatcher.

JavaScript strings are modelled as Lean `String`s; the handful of regular
expressions the scripts use are executed by a small backtracking matcher
(`RE`) whose alternation order, greediness and laziness mirror the
JavaScript engine.  Timestamps (`runIso` values) are modelled as naturals:
ISO-8601 UTC strings compare exactly like the instants they denote.
-/

namespace Hirecre

/-! ## JavaScript string primitives -/

/-- JS whitespace class (`\s`, `trim`): space, tab, line feed, carriage
return, vertical tab, form feed, no-break space. -/
def jsSpace (c : Char) : Bool :=
  c = ' ' || c = '\t' || c = '\n' || c = '\r' ||
  c = (Char.ofNat 11) || c = (Char.ofNat 12) || c = (Char.ofNat 160)

/-- Models `String.prototype.trim`. -/
def trimChars (s : List Char) : List Char :=
  ((s.dropWhile jsSpace).reverse.dropWhile jsSpace).reverse

def trimStr (s : String) : String := ⟨trimChars s.data⟩

/-- Models `String.prototype.toLowerCase` (ASCII fragment). -/
def lowerStr (s : String) : String := ⟨s.data.map Char.toLower⟩

/-- Models `String.prototype.toUpperCase` (ASCII fragment). -/
def upperStr (s : String) : String := ⟨s.data.map Char.toUpper⟩

/-- Is `n` a prefix of `h` (char lists)? -/
def isPrefixChars : List Char → List Char → Bool
  | [], _ => true
  | _ :: _, [] => false
  | a :: n, b :: h => a = b && isPrefixChars n h

/-- Models `String.prototype.includes` on char lists. -/
def isSubstrChars (n : List Char) : List Char → Bool
  | [] => isPrefixChars n []
  | c :: h => isPrefixChars n (c :: h) || isSubstrChars n h

/-- Models `hay.includes(needle)`. -/
def includesStr (hay needle : String) : Bool := isSubstrChars needle.data hay.data

/-- Case-insensitive containment: `hay.toLowerCase().includes(needle)`
(`needle` already lower-case at every use site). -/
def includesCI (hay needle : String) : Bool := includesStr (lowerStr hay) needle

/-- Split on a separator character (`String.prototype.split(",")`). -/
def splitOnChar (sep : Char) (s : List Char) : List (List Char) :=
  match s with
  | [] => [[]]
  | c :: rest =>
    let r := splitOnChar sep rest
    if c = sep then [] :: r
    else
      match r with
      | [] => [[c]]
      | p :: ps => (c :: p) :: ps

/-- Models `raw.split(",").map(p => p.trim()).filter(Boolean)` — the comma-segment
decomposition used throughout the scripts. -/
def splitCommaTrim (s : String) : List String :=
  ((splitOnChar ',' s.data).map (fun p => (⟨trimChars p⟩ : String))).filter
    (fun p => p ≠ "")

/-- Collapse every run of JS whitespace to one space:
`x.replace(/\s+/g, " ")`. -/
def collapseWs : List Char → List Char
  | [] => []
  | [c] => if jsSpace c then [' '] else [c]
  | c :: c2 :: rest =>
    if jsSpace c && jsSpace c2 then collapseWs (c2 :: rest)
    else (if jsSpace c then ' ' else c) :: collapseWs (c2 :: rest)

/-- Models `x.replace(/\s+/g, " ").trim()`. -/
def collapseTrim (s : String) : String := ⟨trimChars (collapseWs s.data)⟩

/-- Models `function normalize(s) { return (s || "").toString().trim(); }` with a
nullable argument. -/
def normalize (s : Option String) : String := trimStr ((s.getD ""))

/-! ## A small backtracking regular-expression engine

Alternation is tried left to right, greedy pieces longest-first and lazy
pieces shortest-first, exactly as in the JavaScript engine; a search
returns the match at the leftmost feasible start position. -/

/-- JS `\w`: ASCII letters, digits and underscore. -/
def isWordChar (c : Char) : Bool := c.isAlpha || c.isDigit || c = '_'

inductive RE where
  /-- empty pattern -/
  | eps
  /-- one character satisfying the class -/
  | cls (p : Char → Bool)
  /-- concatenation -/
  | seq (r1 r2 : RE)
  /-- alternation, left preferred -/
  | alt (r1 r2 : RE)
  /-- greedy star -/
  | starG (r : RE)
  /-- lazy star -/
  | starL (r : RE)
  /-- word boundary `\b` -/
  | wb
  /-- end of input `$` -/
  | eos

/-- CPS backtracking matcher for the star-free connectives, structurally
recursive on the pattern; star nodes are delegated to `starH` (the `Bool`
is `true` for greedy).  `prev` is the character just before the current
position (for `\b`); the continuation receives the updated `prev` and the
remaining input. -/
def reMatchRe (starH : Bool → RE → Option Char → List Char →
    (Option Char → List Char → Option (List Char)) → Option (List Char)) :
    RE → Option Char → List Char →
    (Option Char → List Char → Option (List Char)) → Option (List Char)
  | .eps, prev, s, k => k prev s
  | .cls p, _, s, k =>
    match s with
    | [] => none
    | c :: rest => if p c then k (some c) rest else none
  | .seq r1 r2, prev, s, k =>
    reMatchRe starH r1 prev s (fun p2 s2 => reMatchRe starH r2 p2 s2 k)
  | .alt r1 r2, prev, s, k =>
    (reMatchRe starH r1 prev s k).orElse (fun _ => reMatchRe starH r2 prev s k)
  | .starG r, prev, s, k => starH true r prev s k
  | .starL r, prev, s, k => starH false r prev s k
  | .wb, prev, s, k =>
    let before := match prev with | some c => isWordChar c | none => false
    let after := match s with | c :: _ => isWordChar c | [] => false
    if before ≠ after then k prev s else none
  | .eos, prev, s, k =>
    match s with
    | [] => k prev s
    | _ :: _ => none

/-- The full matcher.  `fuel` bounds star unrolling (each unrolled
iteration must consume at least one character, mirroring the JS engine's
empty-match protection); every use supplies more fuel than any run can
consume, and a star falls back to its exit when fuel runs out. -/
def reMatch : Nat → RE → Option Char → List Char →
    (Option Char → List Char → Option (List Char)) → Option (List Char)
  | 0, r, prev, s, k =>
    reMatchRe (fun _ _ p2 s2 k2 => k2 p2 s2) r prev s k
  | fuel + 1, r, prev, s, k =>
    reMatchRe
      (fun greedy rb p2 s2 k2 =>
        if greedy then
          (reMatch fuel rb p2 s2 (fun p3 s3 =>
            if s3.length < s2.length then reMatch fuel (.starG rb) p3 s3 k2
            else none)).orElse (fun _ => k2 p2 s2)
        else
          (k2 p2 s2).orElse (fun _ =>
            reMatch fuel rb p2 s2 (fun p3 s3 =>
              if s3.length < s2.length then reMatch fuel (.starL rb) p3 s3 k2
              else none)))
      r prev s k

/-- Length of the match of `r` at the current position (JS backtracking
preference), `none` if `r` does not match here. -/
def reMatchAt (r : RE) (prev : Option Char) (s : List Char) : Option Nat :=
  (reMatch (s.length + 1000) r prev s (fun _ rest => some rest)).map
    (fun rest => s.length - rest.length)

/-- Leftmost search (`String.prototype.match` with a non-global pattern):
the matched character run at the first position where `r` matches. -/
def reSearchChars (r : RE) (prev : Option Char) (s : List Char) :
    Option (List Char) :=
  match reMatchAt r prev s with
  | some n => some (s.take n)
  | none =>
    match s with
    | [] => none
    | c :: rest => reSearchChars r (some c) rest

def reSearchStr (r : RE) (s : String) : Option String :=
  (reSearchChars r none s.data).map (fun l => ⟨l⟩)

/-- Models `regex.test(s)`. -/
def reTest (r : RE) (s : String) : Bool := (reSearchChars r none s.data).isSome

/-- Models `s.replace(regex-with-g, repl)` for patterns that can only match a
non-empty run (all patterns replaced in this code base are such).  The
extra fuel argument only makes the recursion structural: every step either
emits one character or consumes a non-empty match, so `s.length + 1` fuel
always suffices. -/
def reReplaceAllGo (r : RE) (repl : List Char) :
    Nat → Option Char → List Char → List Char
  | 0, _, s => s
  | _ + 1, _, [] => []
  | fuel + 1, prev, c :: rest =>
    match reMatchAt r prev (c :: rest) with
    | some (n + 1) =>
      let consumed := (c :: rest).take (n + 1)
      let prevNext := match consumed.getLast? with
        | some d => some d
        | none => some c
      repl ++ reReplaceAllGo r repl fuel prevNext ((c :: rest).drop (n + 1))
    | _ => c :: reReplaceAllGo r repl fuel (some c) rest

def reReplaceAllStr (r : RE) (repl : String) (s : String) : String :=
  ⟨reReplaceAllGo r repl.data (s.data.length + 1) none s.data⟩

/-! Pattern constructors. -/

/-- Case-sensitive literal character. -/
def reChr (c : Char) : RE := .cls (fun d => d = c)

/-- Case-insensitive literal character (`c` given in lower case). -/
def reChrCI (c : Char) : RE := .cls (fun d => d.toLower = c)

/-- Case-insensitive literal word (given in lower case). -/
def reLitCI (w : String) : RE :=
  w.data.foldr (fun c acc => RE.seq (reChrCI c) acc) RE.eps

/-- Case-sensitive literal word. -/
def reLit (w : String) : RE :=
  w.data.foldr (fun c acc => RE.seq (reChr c) acc) RE.eps

/-- Greedy `?`. -/
def reOpt (r : RE) : RE := .alt r .eps

/-- Greedy `+`. -/
def rePlus (r : RE) : RE := .seq r (.starG r)

/-- Models `(a|b|…)`, preference left to right. -/
def reAlts : List RE → RE
  | [] => .eps
  | [r] => r
  | r :: rs => .alt r (reAlts rs)

/-- Sequence of pieces. -/
def reSeqs : List RE → RE
  | [] => .eps
  | [r] => r
  | r :: rs => .seq r (reSeqs rs)

def reDigit : RE := .cls Char.isDigit

def reWsCls : RE := .cls jsSpace

/-- JS `.` (anything but a line terminator). -/
def reDot : RE := .cls (fun c => !(c = '\n' || c = '\r'))

/-- JS `[\s\S]` (anything at all). -/
def reAny : RE := .cls (fun _ => true)

/-! ## Pay extraction (`stripHtml`, `extractPayFromText`, `computePayFields`)

Transliterated from `scripts/sync-greenhouse.mjs` (same text in
`src/unnamed/part_014`). -/

/-- Models `\d{2,3}(?:,\d{3})?(?:\.\d{2})?` — an amount with optional thousands
group and optional cents. -/
def payAmount23 : RE :=
  reSeqs [reDigit, reDigit, reOpt reDigit,
    reOpt (reSeqs [reChr ',', reDigit, reDigit, reDigit]),
    reOpt (reSeqs [reChr '.', reDigit, reDigit])]

/-- Models `(?:\/year|\/yr|per year|yr|annum)`. -/
def payYearSuffix : RE :=
  reAlts [reLitCI "/year", reLitCI "/yr", reLitCI "per year",
    reLitCI "yr", reLitCI "annum"]

/-- Models `(?:\/hour|\/hr|per hour|hr)`. -/
def payHourSuffix : RE :=
  reAlts [reLitCI "/hour", reLitCI "/hr", reLitCI "per hour", reLitCI "hr"]

/-- Models `/\$\s?\d{2,3}(?:,\d{3})?(?:\.\d{2})?\s?(?:-|–|to)\s?\$\s?\d{2,3}(?:,\d{3})?(?:\.\d{2})?\s?(?:\/year|\/yr|per year|yr|annum)?/i` -/
def payPattern1 : RE :=
  reSeqs [reChr '$', reOpt reWsCls, payAmount23, reOpt reWsCls,
    reAlts [reChr '-', reChr '–', reLitCI "to"],
    reOpt reWsCls, reChr '$', reOpt reWsCls, payAmount23, reOpt reWsCls,
    reOpt payYearSuffix]

/-- Models `/\$\s?\d{2,3}(?:,\d{3})+(?:\.\d{2})?\s?(?:\/year|\/yr|per year|yr|annum)/i` -/
def payPattern2 : RE :=
  reSeqs [reChr '$', reOpt reWsCls, reDigit, reDigit, reOpt reDigit,
    rePlus (reSeqs [reChr ',', reDigit, reDigit, reDigit]),
    reOpt (reSeqs [reChr '.', reDigit, reDigit]),
    reOpt reWsCls, payYearSuffix]

/-- Models `/\$\s?\d+(?:,\d{3})*\s?(?:\/hour|\/hr|per hour|hr)/i` -/
def payPattern3 : RE :=
  reSeqs [reChr '$', reOpt reWsCls, rePlus reDigit,
    .starG (reSeqs [reChr ',', reDigit, reDigit, reDigit]),
    reOpt reWsCls, payHourSuffix]

/-- Models `/\b(OTE|On[-\s]?target earnings)\b.*?\$\s?\d/i` -/
def payPattern4 : RE :=
  reSeqs [.wb,
    reAlts [reLitCI "ote",
      reSeqs [reLitCI "on", reOpt (.cls (fun c => c = '-' || jsSpace c)),
        reLitCI "target earnings"]],
    .wb, .starL reDot, reChr '$', reOpt reWsCls, reDigit]

/-- Models `/\b(base salary|salary range|compensation|pay range)\b.*?\$\s?\d/i` -/
def payPattern5 : RE :=
  reSeqs [.wb,
    reAlts [reLitCI "base salary", reLitCI "salary range",
      reLitCI "compensation", reLitCI "pay range"],
    .wb, .starL reDot, reChr '$', reOpt reWsCls, reDigit]

/-- The ordered pattern list of `extractPayFromText`. -/
def payPatterns : List RE :=
  [payPattern1, payPattern2, payPattern3, payPattern4, payPattern5]

/-- The `for (const re of patterns)` loop: first pattern whose match is a
non-empty string wins, returned as
`m[0].replace(/\s+/g, " ").trim()`. -/
def payPatternLoop : List RE → String → Option String
  | [], _ => none
  | re :: res, t =>
    match reSearchStr re t with
    | some m => if m = "" then payPatternLoop res t else some (collapseTrim m)
    | none => payPatternLoop res t

/-- The keyword alternation of the fallback test
`/(salary|compensation|pay|hour|year|ote)/i`; a case-insensitive regex that
is a plain alternation of literals holds exactly when one of the literals
is a case-insensitive substring. -/
def payKeywords : List String :=
  ["salary", "compensation", "pay", "hour", "year", "ote"]

def hasPayKeyword (t : String) : Bool :=
  payKeywords.any (fun kw => includesCI t kw)

/-- Models `function extractPayFromText(text)`. -/
def extractPayFromText (t : String) : Option String :=
  match payPatternLoop payPatterns t with
  | some m => some m
  | none =>
    if includesStr t "$" && hasPayKeyword t then
      some "Pay mentioned (see listing)"
    else none

/-- Models `/<script[\s\S]*?>[\s\S]*?<\/script>/gi` -/
def reScriptBlock : RE :=
  reSeqs [reLitCI "<script", .starL reAny, reChr '>', .starL reAny,
    reLitCI "</script>"]

/-- Models `/<style[\s\S]*?>[\s\S]*?<\/style>/gi` -/
def reStyleBlock : RE :=
  reSeqs [reLitCI "<style", .starL reAny, reChr '>', .starL reAny,
    reLitCI "</style>"]

/-- Models `/<[^>]+>/g` -/
def reTag : RE := reSeqs [reChr '<', rePlus (.cls (fun c => c != '>')), reChr '>']

/-- Models `function stripHtml(html)`. -/
def stripHtml (html : String) : String :=
  let s1 := reReplaceAllStr reScriptBlock " " html
  let s2 := reReplaceAllStr reStyleBlock " " s1
  let s3 := reReplaceAllStr reTag " " s2
  let s4 := reReplaceAllStr (reLit "&nbsp;") " " s3
  let s5 := reReplaceAllStr (reLit "&amp;") "&" s4
  collapseTrim s5

structure PayFields where
  has_pay : Bool
  pay_extracted : Option String
deriving DecidableEq, Repr

/-- Models `function computePayFields({title, location, content, description})`. -/
def computePayFields (title location content description : Option String) :
    PayFields :=
  let combined := (title.getD "") ++ "\n" ++ (location.getD "") ++ "\n" ++
    (content.getD "") ++ "\n" ++ (description.getD "")
  let plain := stripHtml combined
  let pay := extractPayFromText plain
  { has_pay := pay.isSome, pay_extracted := pay }

/-! ## Location parsing (`parseLocationUS`, from `src/unnamed/part_014`) -/

/-- Models `const STATE_ABBRS = new Set([...])`. -/
def STATE_ABBRS : List String :=
  ["AL", "AK", "AZ", "AR", "CA", "CO", "CT", "DE", "FL", "GA",
   "HI", "ID", "IL", "IN", "IA", "KS", "KY", "LA", "ME", "MD",
   "MA", "MI", "MN", "MS", "MO", "MT", "NE", "NV", "NH", "NJ",
   "NM", "NY", "NC", "ND", "OH", "OK", "OR", "PA", "RI", "SC",
   "SD", "TN", "TX", "UT", "VT", "VA", "WA", "WV", "WI", "WY", "DC"]

/-- Models `const STATE_NAME_TO_ABBR = new Map(Object.entries({...}))`, in
insertion order. -/
def STATE_NAME_TO_ABBR : List (String × String) :=
  [("alabama", "AL"), ("alaska", "AK"), ("arizona", "AZ"),
   ("arkansas", "AR"), ("california", "CA"), ("colorado", "CO"),
   ("connecticut", "CT"), ("delaware", "DE"), ("florida", "FL"),
   ("georgia", "GA"), ("hawaii", "HI"), ("idaho", "ID"),
   ("illinois", "IL"), ("indiana", "IN"), ("iowa", "IA"),
   ("kansas", "KS"), ("kentucky", "KY"), ("louisiana", "LA"),
   ("maine", "ME"), ("maryland", "MD"), ("massachusetts", "MA"),
   ("michigan", "MI"), ("minnesota", "MN"), ("mississippi", "MS"),
   ("missouri", "MO"), ("montana", "MT"), ("nebraska", "NE"),
   ("nevada", "NV"), ("new hampshire", "NH"), ("new jersey", "NJ"),
   ("new mexico", "NM"), ("new york", "NY"), ("north carolina", "NC"),
   ("north dakota", "ND"), ("ohio", "OH"), ("oklahoma", "OK"),
   ("oregon", "OR"), ("pennsylvania", "PA"), ("rhode island", "RI"),
   ("south carolina", "SC"), ("south dakota", "SD"), ("tennessee", "TN"),
   ("texas", "TX"), ("utah", "UT"), ("vermont", "VT"), ("virginia", "VA"),
   ("washington", "WA"), ("west virginia", "WV"), ("wisconsin", "WI"),
   ("wyoming", "WY"), ("district of columbia", "DC")]

/-- Models `r{0,n}`, greedy. -/
def reRepMax (r : RE) : Nat → RE
  | 0 => .eps
  | n + 1 => reOpt (.seq r (reRepMax r n))

/-- Anchored-at-start test (`/^…/.test(v)`). -/
def reStartsTest (r : RE) (s : String) : Bool := (reMatchAt r none s.data).isSome

/-- Models `/^\d{1,6}\s/` -/
def reStreetNum : RE := reSeqs [reDigit, reRepMax reDigit 5, reWsCls]

/-- Models `/\b(suite|ste\.?|apt\.?|unit|#)\b/i` -/
def reSuiteWord : RE :=
  reSeqs [.wb,
    reAlts [reLitCI "suite",
      reSeqs [reLitCI "ste", reOpt (reChr '.')],
      reSeqs [reLitCI "apt", reOpt (reChr '.')],
      reLitCI "unit", reChr '#'],
    .wb]

/-- Models `function looksLikeStreetAddress(s)`. -/
def looksLikeStreetAddress (s : String) : Bool :=
  let v := trimStr s
  if v = "" then false
  else if reStartsTest reStreetNum v then true
  else if reTest reSuiteWord v then true
  else false

/-- Models the class `[A-Z]{2}` (case-sensitive). -/
def reUpper2 : RE := .seq (.cls Char.isUpper) (.cls Char.isUpper)

/-- Models `/\b([A-Z]{2})\b(?:\s+\d{5}(?:-\d{4})?)?$/` -/
def reAbbrEnd : RE :=
  reSeqs [.wb, reUpper2, .wb,
    reOpt (reSeqs [rePlus reWsCls, reDigit, reDigit, reDigit, reDigit,
      reDigit, reOpt (reSeqs [reChr '-', reDigit, reDigit, reDigit, reDigit])]),
    .eos]

/-- Models `raw.match(reAbbrEnd)?.[1]`: every match of `reAbbrEnd` starts with the
two captured `[A-Z]` characters (the leading `\b` is zero-width), so group 1
is the first two characters of the overall match. -/
def abbrMatch (raw : String) : Option String :=
  (reSearchChars reAbbrEnd none raw.data).map (fun m => ⟨m.take 2⟩)

/-- Models ``new RegExp(`\\b${state}\\b`)`` for a 2-letter `state`. -/
def stateWordRE (st : String) : RE := reSeqs [.wb, reLit st, .wb]

/-- The inner name scan of step 2: `for (const [name, abbr] of
STATE_NAME_TO_ABBR.entries()) if (lower.includes(name)) found = abbr;` —
the *last* matching entry wins (no `break`). -/
def nameSearch (lower : String) : Option String :=
  STATE_NAME_TO_ABBR.foldl
    (fun found nv => if includesStr lower nv.1 then some nv.2 else found) none

/-- Does a comma part contain a full name mapping to `st`
(the stateIdx-by-name loop body)? -/
def partHasStateName (st : String) (p : String) : Bool :=
  STATE_NAME_TO_ABBR.any (fun nv => nv.2 = st && includesStr (lowerStr p) nv.1)

/-- The repeated guard `candidate && !looksLikeStreetAddress(candidate) &&
candidate.toLowerCase() !== "united states"`. -/
def cityGood (candidate : String) : Bool :=
  candidate ≠ "" && !looksLikeStreetAddress candidate &&
    lowerStr candidate ≠ "united states"

structure LocResult where
  city : Option String
  state : Option String
deriving DecidableEq, Repr

/-- Models `function parseLocationUS(locationRaw)`. -/
def parseLocationUS (locationRaw : Option String) : LocResult :=
  let raw := normalize locationRaw
  if raw = "" then { city := none, state := none }
  else
    let lower := lowerStr raw
    if includesStr lower "remote" then { city := some "Remote", state := none }
    else
      let stateAbbr : Option String :=
        match abbrMatch raw with
        | some a => if STATE_ABBRS.contains a then some a else none
        | none => none
      let state : Option String :=
        match stateAbbr with
        | some a => some a
        | none => nameSearch lower
      let parts := splitCommaTrim raw
      let city : Option String :=
        if parts.length ≥ 2 then
          match state with
          | some st =>
            let stateIdx : Option Nat :=
              (parts.findIdx? (fun p => reTest (stateWordRE st) p)).orElse
                (fun _ => parts.findIdx? (fun p => partHasStateName st p))
            let city1 : Option String :=
              match stateIdx with
              | some i =>
                if i > 0 then
                  match parts.get? (i - 1) with
                  | some candidate =>
                    if cityGood candidate then some candidate else none
                  | none => none
                else none
              | none => none
            match city1 with
            | some c => some c
            | none =>
              match parts.get? 0 with
              | some candidate =>
                if cityGood candidate then some candidate else none
              | none => none
          | none =>
            match parts.get? 0 with
            | some candidate =>
              if cityGood candidate then some candidate else none
            | none => none
        else
          if lower ≠ "united states" && !looksLikeStreetAddress raw then
            some raw
          else none
      { city := city, state := state }

/-! ## Fingerprint & upsert engine (`scripts/sync-greenhouse.mjs`) -/

/-- Models `const EXCLUDE_TITLE_KEYWORDS = [...]`. -/
def EXCLUDE_TITLE_KEYWORDS : List String :=
  ["janitor", "cleaning", "property maintenance", "maintenance",
   "maintenance technician", "facilities", "facilities manager",
   "regional facilities", "engineering", "engineer", "it",
   "information technology", "helpdesk", "desktop support", "network",
   "licensed real estate agent", "real estate agent"]

/-- Models `function shouldExcludeTitle(title)`. -/
def shouldExcludeTitle (title : Option String) : Bool :=
  let t := lowerStr (normalize title)
  if t = "" then false
  else EXCLUDE_TITLE_KEYWORDS.any (fun kw => includesStr t (lowerStr kw))

/-- Models `function buildFingerprint({source, source_job_id, url})` —
`` `${a}::${b || c}` ``. -/
def buildFingerprint (source source_job_id url : Option String) : String :=
  let a := normalize source
  let b := normalize source_job_id
  let c := normalize url
  a ++ "::" ++ (if b = "" then c else b)

/-- One raw Greenhouse posting `j`, with the fields `main` reads.
`jid` stands for `j.id` already rendered by `String(j.id)` (absent when
`j.id == null`). -/
structure Posting where
  title : Option String
  absolute_url : Option String
  jid : Option String
  location_name : Option String
  location_location : Option String
  content : Option String
  updated_at : Option String
deriving DecidableEq, Repr

/-- One catalog row of the `jobs` table, as built by `main`.  Timestamps
(`last_seen_at`, the `runIso` values) are naturals: ISO-8601 UTC strings
compare exactly like the instants they denote. -/
structure Row where
  source : String
  source_job_id : Option String
  source_company : String
  title : String
  company : String
  location_raw : Option String
  location_city : Option String
  location_state : Option String
  employment_type : Option String
  job_type : Option String
  url : String
  description : Option String
  posted_at : Option String
  has_pay : Bool
  pay_extracted : Option String
  fingerprint : String
  is_active : Bool
  last_seen_at : Nat
deriving DecidableEq, Repr

/-- The two `continue` guards of the row loop: a posting is kept when it
has a title, a url, and a non-excluded title. -/
def keepPosting (j : Posting) : Bool :=
  normalize j.title ≠ "" && normalize j.absolute_url ≠ "" &&
    !shouldExcludeTitle j.title

/-- Models `normalize(j?.location?.name) || normalize(j?.location?.location) || null`. -/
def postingLocationRaw (j : Posting) : Option String :=
  let n := normalize j.location_name
  if n ≠ "" then some n
  else
    let l := normalize j.location_location
    if l ≠ "" then some l else none

/-- The body of the row loop of `main` for one kept posting.
`posted_at` keeps `j.updated_at` as given (the `new Date(…).toISOString()`
re-rendering of an already-ISO string is not modelled). -/
def buildRow (j : Posting) (companySlug : String) (runIso : Nat) : Row :=
  let title := normalize j.title
  let jobUrl := normalize j.absolute_url
  let locationRaw := postingLocationRaw j
  let loc := parseLocationUS locationRaw
  let pay := computePayFields (some title) (some (locationRaw.getD ""))
    (some (j.content.getD "")) (some "")
  { source := "greenhouse"
    source_job_id := j.jid
    source_company := companySlug
    title := title
    company := companySlug
    location_raw := locationRaw
    location_city := loc.city
    location_state := loc.state
    employment_type := none
    job_type := none
    url := jobUrl
    description := (let d := normalize j.content; if d = "" then none else some d)
    posted_at := (match j.updated_at with
      | some u => if u = "" then none else some u
      | none => none)
    has_pay := pay.has_pay
    pay_extracted := pay.pay_extracted
    fingerprint := buildFingerprint (some "greenhouse") j.jid (some jobUrl)
    is_active := true
    last_seen_at := runIso }

/-- The `rows` array built by `main` for one source. -/
def buildRows (js : List Posting) (slug : String) (runIso : Nat) : List Row :=
  (js.filter keepPosting).map (fun j => buildRow j slug runIso)

/-- One insert-or-update keyed on the unique `fingerprint` column: an
existing row with that key is replaced wholesale, otherwise the row is
appended. -/
def upsertOne (cat : List Row) (row : Row) : List Row :=
  if cat.any (fun r => r.fingerprint = row.fingerprint) then
    cat.map (fun r => if row.fingerprint = r.fingerprint then row else r)
  else cat ++ [row]

/-- Models `upsertJobs(rows)` — `supabase.from("jobs").upsert(rows, { onConflict:
"fingerprint" })`. -/
def upsertJobs (cat : List Row) (rows : List Row) : List Row :=
  rows.foldl upsertOne cat

/-- The row-level effect of `markStaleInactive`: set `is_active = false`
where `source = "greenhouse"`, `source_company = companySlug` and
`last_seen_at < runIso`. -/
def staleUpdate (companySlug : String) (runIso : Nat) (r : Row) : Row :=
  if r.source = "greenhouse" && r.source_company = companySlug &&
      r.last_seen_at < runIso then
    { r with is_active := false }
  else r

/-- Models `async function markStaleInactive(companySlug, runIso)`. -/
def markStaleInactive (cat : List Row) (companySlug : String) (runIso : Nat) :
    List Row :=
  cat.map (staleUpdate companySlug runIso)

/-- The per-source `try` block of `main` after a successful fetch, as a
catalog transformer.  `persistOk` is the outcome of the `upsertJobs` call:
when it throws, the `catch` swallows the error and `markStaleInactive` is
never reached for that source. -/
def syncSourceStep (cat : List Row) (js : List Posting) (slug : String)
    (runIso : Nat) (persistOk : Bool) : List Row :=
  if (buildRows js slug runIso).isEmpty then markStaleInactive cat slug runIso
  else if persistOk then
    markStaleInactive (upsertJobs cat (buildRows js slug runIso)) slug runIso
  else cat

inductive SyncEv where
  /-- a committed batch upsert of `n` rows -/
  | upsertBatch (n : Nat)
  /-- an `upsertJobs` call that threw -/
  | upsertFailed
  /-- a `markStaleInactive` call -/
  | sweep
deriving DecidableEq, Repr

/-- The same per-source block as an event trace, for the ordering between
the batch commit and the staleness sweep. -/
def syncSourceEvents (js : List Posting) (slug : String) (runIso : Nat)
    (persistOk : Bool) : List SyncEv :=
  if (buildRows js slug runIso).isEmpty then [SyncEv.sweep]
  else if persistOk then
    [SyncEv.upsertBatch (buildRows js slug runIso).length, SyncEv.sweep]
  else [SyncEv.upsertFailed]

/-! ## Saved-search predicate (`jobMatches`, `scripts/run-saved-search-alerts.mjs`) -/

/-- Models `function norm(v)`: `null`/`undefined` and blank strings become `null`,
anything else is trimmed. -/
def norm (v : Option String) : Option String :=
  match v with
  | none => none
  | some s => let t := trimStr s; if t = "" then none else some t

/-- The catalog columns `jobMatches` reads. -/
structure Job where
  title : Option String
  company : Option String
  source : Option String
  location_raw : Option String
  location_city : Option String
  location_state : Option String
  description : Option String
  has_pay : Bool
deriving DecidableEq, Repr

/-- A saved-search filter object `f`. -/
structure SearchFilter where
  q : Option String
  company : Option String
  state : Option String
  source : Option String
  remote_only : Bool
  pay_only : Bool
deriving DecidableEq, Repr

/-- Models `function jobMatches(job, f)`; each early `return false` guard becomes
one conjunct, in source order. -/
def jobMatches (job : Job) (f : SearchFilter) : Bool :=
  (match norm f.company with
    | none => true
    | some company =>
      includesStr (lowerStr (job.company.getD "")) (lowerStr company)) &&
  (match norm f.state with
    | none => true
    | some state =>
      trimStr (upperStr (job.location_state.getD "")) = upperStr state) &&
  (match norm f.source with
    | none => true
    | some source =>
      trimStr (lowerStr (job.source.getD "")) = lowerStr source) &&
  (if f.remote_only then
    includesStr
      (lowerStr ((job.location_raw.getD "") ++ " " ++
        (job.location_city.getD "") ++ " " ++ (job.location_state.getD "")))
      "remote"
   else true) &&
  (if f.pay_only then job.has_pay else true) &&
  (match norm f.q with
    | none => true
    | some q =>
      includesStr
        (lowerStr ((job.title.getD "") ++ " " ++ (job.company.getD "") ++ " " ++
          (job.location_raw.getD "") ++ " " ++ (job.location_city.getD "") ++
          " " ++ (job.location_state.getD "") ++ " " ++
          (job.description.getD "")))
        (lowerStr q))

/-! ## Delivery ledger cycle

From the ledger variant of `scripts/run-saved-search-alerts.mjs`: matched
jobs are inserted into `saved_search_alerts` (unique on
`(saved_search_id, job_id)`; on a conflict the script falls back to
row-by-row inserts keeping the successes), and an email is sent only for
the job ids whose ledger insert succeeded. -/

/-- An already-notified `(saved_search_id, job_id)` pair. -/
abbrev LedgerPair := Nat × Nat

/-- One email actually sent for a saved search, with the job ids it
references. -/
structure AlertDelivery where
  sid : Nat
  jobIds : List Nat
deriving DecidableEq, Repr

/-- One row of the dedupe insert: a pair not yet present is appended to
the ledger and its job id reported as newly inserted; a pair already
present is skipped (the unique-constraint conflict path). -/
def alertPairStep (sid : Nat) (acc : List LedgerPair × List Nat) (j : Nat) :
    List LedgerPair × List Nat :=
  if (sid, j) ∈ acc.1 then acc else (acc.1 ++ [(sid, j)], acc.2 ++ [j])

/-- The dedupe insert over a matched batch. -/
def insertAlertPairs (ledger : List LedgerPair) (sid : Nat)
    (jobIds : List Nat) : List LedgerPair × List Nat :=
  jobIds.foldl (alertPairStep sid) (ledger, [])

/-- One enabled saved search in the cycle loop: `matched` is the job-id
list its window query returned.  No matches, or no matches surviving the
dedupe, produce no email (the watermark still advances). -/
def alertSearchStep (ledger : List LedgerPair) (sid : Nat)
    (matched : List Nat) : List LedgerPair × Option AlertDelivery :=
  if matched.isEmpty then (ledger, none)
  else if (insertAlertPairs ledger sid matched).2.isEmpty then
    ((insertAlertPairs ledger sid matched).1, none)
  else
    ((insertAlertPairs ledger sid matched).1,
      some { sid := sid, jobIds := (insertAlertPairs ledger sid matched).2 })

/-- The cycle-loop body: run one saved search against the current ledger
and append its delivery, if any. -/
def alertCycleStep (acc : List LedgerPair × List AlertDelivery)
    (sub : Nat × List Nat) : List LedgerPair × List AlertDelivery :=
  ((alertSearchStep acc.1 sub.1 sub.2).1,
    acc.2 ++ (match (alertSearchStep acc.1 sub.1 sub.2).2 with
      | some d => [d]
      | none => []))

/-- One alert cycle over the enabled saved searches
(`(saved_search_id, matched job ids)` each). -/
def runAlertCycle (ledger : List LedgerPair)
    (subs : List (Nat × List Nat)) : List LedgerPair × List AlertDelivery :=
  subs.foldl alertCycleStep (ledger, [])

/-- One whole cycle appended to an operational history. -/
def alertHistoryStep (acc : List LedgerPair × List AlertDelivery)
    (subs : List (Nat × List Nat)) : List LedgerPair × List AlertDelivery :=
  ((runAlertCycle acc.1 subs).1, acc.2 ++ (runAlertCycle acc.1 subs).2)

/-- An operational history: successive alert cycles starting from an empty
ledger, accumulating every delivery ever made. -/
def runAlertHistory (cycles : List (List (Nat × List Nat))) :
    List LedgerPair × List AlertDelivery :=
  cycles.foldl alertHistoryStep ([], [])

/-- Does delivery `d` reference the pair `(sid, j)`? -/
def referencesPair (d : AlertDelivery) (sid j : Nat) : Bool :=
  d.sid = sid && d.jobIds.contains j

/-! ## Delivery dispatcher (variant with `alert_deliveries`) -/

inductive DeliveryEv where
  /-- the `alert_deliveries` insert, carrying the status it writes -/
  | insertDelivery (status : String) (matchedCount : Nat)
  /-- the `sendWithResend` HTTP call -/
  | resendCall
deriving DecidableEq, Repr

/-- The per-subscription delivery segment of the alert script: the
delivery row is inserted first, with status `"dry_run"` when `DRY_RUN` and
`"sent"` otherwise; outside dry-run the sender is then invoked, and a
failing send (`sendOk = false`) throws, aborting the run (second component
`false`) with no further write to the delivery row. -/
def dispatchDelivery (dryRun sendOk : Bool) (matchedCount : Nat) :
    List DeliveryEv × Bool :=
  let ins := DeliveryEv.insertDelivery (if dryRun then "dry_run" else "sent")
    matchedCount
  if dryRun then ([ins], true)
  else if sendOk then ([ins, DeliveryEv.resendCall], true)
  else ([ins, DeliveryEv.resendCall], false)

/-- The statuses written to `alert_deliveries` in a trace. -/
def statusesWritten (evs : List DeliveryEv) : List String :=
  evs.filterMap
    (fun e => match e with
      | DeliveryEv.insertDelivery st _ => some st
      | _ => none)

/-! ## Specification-side predicates

Written from the spec's words (§4.4 and the C4/C8 claims), to be compared
with the definitions above. -/

/-- Spec §4.4, company: case-insensitive substring against the company
name (wildcard when unset). -/
def companyOkSpec (job : Job) (f : SearchFilter) : Bool :=
  match norm f.company with
  | none => true
  | some company =>
    includesStr (lowerStr (job.company.getD "")) (lowerStr company)

/-- Spec §4.4, region: exact match against the job's normalized region
code. -/
def stateOkSpec (job : Job) (f : SearchFilter) : Bool :=
  match norm f.state with
  | none => true
  | some state =>
    trimStr (upperStr (job.location_state.getD "")) = upperStr state

/-- Spec §4.4, source: exact match against the source identifier. -/
def sourceOkSpec (job : Job) (f : SearchFilter) : Bool :=
  match norm f.source with
  | none => true
  | some source =>
    trimStr (lowerStr (job.source.getD "")) = lowerStr source

/-- Spec §4.4, remote-only: "remote" substring (case-insensitive) present
in **some** location field. -/
def remoteOkSpec (job : Job) (f : SearchFilter) : Bool :=
  if f.remote_only then
    includesCI (job.location_raw.getD "") "remote" ||
    includesCI (job.location_city.getD "") "remote" ||
    includesCI (job.location_state.getD "") "remote"
  else true

/-- Spec §4.4, pay-only: requires the `has_pay` flag. -/
def payOkSpec (job : Job) (f : SearchFilter) : Bool :=
  if f.pay_only then job.has_pay else true

/-- Spec §4.4 as written: the free-text query is matched against the
concatenation of title, company and the location fields — and nothing
else. -/
def qOkSpecOrig (job : Job) (f : SearchFilter) : Bool :=
  match norm f.q with
  | none => true
  | some q =>
    includesStr
      (lowerStr ((job.title.getD "") ++ " " ++ (job.company.getD "") ++ " " ++
        (job.location_raw.getD "") ++ " " ++ (job.location_city.getD "") ++
        " " ++ (job.location_state.getD "")))
      (lowerStr q)

/-- The amended query clause: the haystack additionally contains the job
description, as `jobMatches` actually builds it. -/
def qOkSpecAmended (job : Job) (f : SearchFilter) : Bool :=
  match norm f.q with
  | none => true
  | some q =>
    includesStr
      (lowerStr ((job.title.getD "") ++ " " ++ (job.company.getD "") ++ " " ++
        (job.location_raw.getD "") ++ " " ++ (job.location_city.getD "") ++
        " " ++ (job.location_state.getD "") ++ " " ++
        (job.description.getD "")))
      (lowerStr q)

/-- The C4 claim's predicate, exactly as stated: every explicitly set
field agrees under the §4.4 per-field semantics. -/
def matchesSpecOrig (job : Job) (f : SearchFilter) : Bool :=
  companyOkSpec job f && stateOkSpec job f && sourceOkSpec job f &&
    remoteOkSpec job f && payOkSpec job f && qOkSpecOrig job f

/-- The amended C4 predicate: identical except that the free-text query
also searches the description. -/
def matchesSpecAmended (job : Job) (f : SearchFilter) : Bool :=
  companyOkSpec job f && stateOkSpec job f && sourceOkSpec job f &&
    remoteOkSpec job f && payOkSpec job f && qOkSpecAmended job f

/-- The filter with every field unset. -/
def emptyFilter : SearchFilter :=
  { q := none, company := none, state := none, source := none,
    remote_only := false, pay_only := false }

/-- The amended C8 city policy: when no region is determined the parser
still extracts a best-effort city — the first comma segment (for
multi-segment inputs) or the whole text (single segment), provided it is
not street-address-like and not "united states"; otherwise null. -/
def noRegionCity (raw : String) : Option String :=
  let parts := splitCommaTrim raw
  if parts.length ≥ 2 then
    match parts.get? 0 with
    | some candidate => if cityGood candidate then some candidate else none
    | none => none
  else if lowerStr raw ≠ "united states" && !looksLikeStreetAddress raw then
    some raw
  else none

/-! Helpers for the idempotence and staleness proofs. -/

/-- Overwrite only `last_seen_at`. -/
def setLastSeen (t : Nat) (r : Row) : Row := { r with last_seen_at := t }

/-- The batch row that ends up under `r.fingerprint` after upserting
`rows` (the last batch row with that key; `r` itself if the key is not in
the batch). -/
def lastUpd (rows : List Row) (r : Row) : Row :=
  rows.foldl (fun acc x => if x.fingerprint = acc.fingerprint then x else acc) r

/-! ## Basic lemmas about the string primitives -/

theorem dropWhile_cons_head_false {α : Type} (p : α → Bool) (l : List α)
    (c : α) (t : List α) (h : l.dropWhile p = c :: t) : p c = false := by
  induction l with
  | nil => simp at h
  | cons a l ih =>
    by_cases ha : p a = true
    · rw [List.dropWhile_cons, if_pos ha] at h
      exact ih h
    · rw [List.dropWhile_cons, if_neg ha] at h
      cases h
      simpa using ha

theorem trimChars_trimChars (l : List Char) :
    trimChars (trimChars l) = trimChars l := by
  unfold trimChars
  have hstep :
      ((l.dropWhile jsSpace).reverse.dropWhile jsSpace).reverse.dropWhile
        jsSpace =
      ((l.dropWhile jsSpace).reverse.dropWhile jsSpace).reverse := by
    cases hbr : ((l.dropWhile jsSpace).reverse.dropWhile jsSpace).reverse with
    | nil => rfl
    | cons c rest =>
      obtain ⟨pre, hpre⟩ :=
        List.dropWhile_suffix (l := (l.dropWhile jsSpace).reverse) jsSpace
      have ha2 : ((l.dropWhile jsSpace).reverse.dropWhile jsSpace).reverse ++
          pre.reverse = l.dropWhile jsSpace := by
        have h3 := congrArg List.reverse hpre
        simpa [List.reverse_append] using h3
      have hX : l.dropWhile jsSpace = c :: (rest ++ pre.reverse) := by
        rw [← ha2, hbr]
        simp
      have hc : jsSpace c = false := dropWhile_cons_head_false _ _ _ _ hX
      rw [List.dropWhile_cons, if_neg (by simp [hc])]
  rw [hstep, List.reverse_reverse, List.dropWhile_idempotent]

theorem trimStr_trimStr (s : String) : trimStr (trimStr s) = trimStr s :=
  congrArg String.mk (trimChars_trimChars s.data)

theorem normalize_normalize (s : Option String) :
    normalize (some (normalize s)) = normalize s :=
  trimStr_trimStr _

/-! ## Fingerprint stability (C3) -/

theorem buildRow_fingerprint (j : Posting) (slug : String) (t : Nat) :
    (buildRow j slug t).fingerprint =
      "greenhouse" ++ "::" ++
        (if normalize j.jid = "" then normalize j.absolute_url
         else normalize j.jid) := by
  show buildFingerprint (some "greenhouse") j.jid
    (some (normalize j.absolute_url)) = _
  unfold buildFingerprint
  rw [normalize_normalize]
  have hgh : normalize (some "greenhouse") = "greenhouse" := by decide
  rw [hgh]

/-- C3: two observations that agree on source and source-native id (and,
when the id is absent, on the url) yield the same fingerprint, whatever
their titles, descriptions, locations, company slugs or run timestamps;
and the fingerprint is the source, a `::` separator, and the native id if
present, else the posting url. -/
theorem fingerprint_stability :
    (∀ (j1 j2 : Posting) (slug1 slug2 : String) (t1 t2 : Nat),
        j1.jid = j2.jid → j1.absolute_url = j2.absolute_url →
        (buildRow j1 slug1 t1).fingerprint = (buildRow j2 slug2 t2).fingerprint)
    ∧ (∀ (j1 j2 : Posting) (slug1 slug2 : String) (t1 t2 : Nat),
        j1.jid = j2.jid → normalize j1.jid ≠ "" →
        (buildRow j1 slug1 t1).fingerprint = (buildRow j2 slug2 t2).fingerprint)
    ∧ ∀ (j : Posting) (slug : String) (t : Nat),
        (buildRow j slug t).fingerprint =
          "greenhouse" ++ "::" ++
            (if normalize j.jid = "" then normalize j.absolute_url
             else normalize j.jid) := by
  refine ⟨?_, ?_, buildRow_fingerprint⟩
  · intro j1 j2 slug1 slug2 t1 t2 hid hurl
    rw [buildRow_fingerprint, buildRow_fingerprint, hid, hurl]
  · intro j1 j2 slug1 slug2 t1 t2 hid hne
    rw [buildRow_fingerprint, buildRow_fingerprint, hid]
    rw [hid] at hne
    simp [hne]

theorem fingerprint_stability_witness :
    (buildRow
        { title := some "Analyst", absolute_url := some "https://x/1",
          jid := some "17", location_name := some "Chicago, IL",
          location_location := none, content := some "old text",
          updated_at := none }
        "acme" 3).fingerprint =
      (buildRow
        { title := some "Senior Analyst", absolute_url := some "https://x/1",
          jid := some "17", location_name := some "Remote",
          location_location := none, content := some "new text",
          updated_at := some "2024-01-01" }
        "acme-renamed" 9).fingerprint :=
  fingerprint_stability.1 _ _ _ _ _ _ rfl rfl

/-! ## Region-code invariant (C10) -/

theorem nameScan_foldl_mem (l : String) :
    ∀ (entries : List (String × String)) (acc : Option String) (s : String),
      entries.foldl
        (fun found nv => if includesStr l nv.1 then some nv.2 else found)
        acc = some s →
      acc = some s ∨ s ∈ entries.map Prod.snd := by
  intro entries
  induction entries with
  | nil => intro acc s h; exact Or.inl h
  | cons e es ih =>
    intro acc s h
    rcases ih _ s h with h2 | h2
    · by_cases hinc : includesStr l e.1
      · simp [hinc] at h2
        right; simp [h2]
      · simp [hinc] at h2
        exact Or.inl h2
    · right; simp [h2]

theorem nameSearch_mem (l s : String) (h : nameSearch l = some s) :
    s ∈ STATE_ABBRS := by
  have h2 := nameScan_foldl_mem l STATE_NAME_TO_ABBR none s h
  rcases h2 with h2 | h2
  · cases h2
  · have hsub : ∀ x ∈ STATE_NAME_TO_ABBR.map Prod.snd, x ∈ STATE_ABBRS := by
      decide
    exact hsub s h2

/-- The region component of `parseLocationUS`, written out: nothing for
empty or remote-marked input; otherwise the validated end-of-string
abbreviation when it exists, else the dictionary scan. -/
theorem parseLocationUS_state_eq (raw : Option String) :
    (parseLocationUS raw).state =
      (if normalize raw = "" then none
       else if includesStr (lowerStr (normalize raw)) "remote" then none
       else
         match abbrMatch (normalize raw) with
         | some a =>
           if STATE_ABBRS.contains a then some a
           else nameSearch (lowerStr (normalize raw))
         | none => nameSearch (lowerStr (normalize raw))) := by
  simp only [parseLocationUS]
  by_cases h0 : normalize raw = ""
  · simp [h0]
  · simp only [h0, if_false]
    by_cases h1 : includesStr (lowerStr (normalize raw)) "remote" = true
    · simp [h1]
    · simp only [h1, if_false, Bool.false_eq_true]
      cases habbr : abbrMatch (normalize raw) with
      | some a =>
        by_cases hc : a ∈ STATE_ABBRS
        · simp [hc]
        · simp [hc]
      | none => rfl

/-- C10: whenever `parseLocationUS` produces a region, it is one of the 51
codes of `STATE_ABBRS` — the abbreviation matcher validates against that
set and the name dictionary only produces its values. -/
theorem parse_location_state_valid (raw : Option String) (s : String)
    (h : (parseLocationUS raw).state = some s) : s ∈ STATE_ABBRS := by
  rw [parseLocationUS_state_eq raw] at h
  split at h
  · exact absurd h (by simp)
  · split at h
    · exact absurd h (by simp)
    · split at h
      next a habbr =>
        split at h
        next hc =>
          cases h
          simpa using hc
        next hc => exact nameSearch_mem _ _ h
      next habbr => exact nameSearch_mem _ _ h

theorem parse_location_state_valid_witness :
    (parseLocationUS (some "Chicago, IL")).state = some "IL" ∧
      "IL" ∈ STATE_ABBRS :=
  ⟨by decide, parse_location_state_valid (some "Chicago, IL") "IL" (by decide)⟩

/-! ## Matcher priority (C7) -/

/-- C7: the matchers run in a fixed priority order — a text containing
"remote" (case-insensitively) short-circuits to the remote marker with
null region; otherwise a valid end-of-string 2-letter code decides the
region and the name dictionary is never consulted; the dictionary is used
only when the abbreviation matcher finds nothing; and the two spec
examples parse as stated (street-address segments are skipped when
choosing the city). -/
theorem parse_location_priority :
    (∀ raw : Option String,
        includesStr (lowerStr (normalize raw)) "remote" = true →
        parseLocationUS raw = { city := some "Remote", state := none })
    ∧ (∀ (raw : Option String) (a : String),
        includesStr (lowerStr (normalize raw)) "remote" = false →
        abbrMatch (normalize raw) = some a →
        STATE_ABBRS.contains a = true →
        (parseLocationUS raw).state = some a)
    ∧ (∀ raw : Option String,
        normalize raw ≠ "" →
        includesStr (lowerStr (normalize raw)) "remote" = false →
        abbrMatch (normalize raw) = none →
        (parseLocationUS raw).state = nameSearch (lowerStr (normalize raw)))
    ∧ parseLocationUS (some "Chicago, IL") =
        { city := some "Chicago", state := some "IL" }
    ∧ parseLocationUS
          (some "10777 Westheimer Road, Suite 400, Houston, Texas 77042") =
        { city := some "Houston", state := some "TX" } := by
  refine ⟨?_, ?_, ?_, by decide, by decide⟩
  · intro raw h
    have h0 : normalize raw ≠ "" := by
      intro he
      rw [he] at h
      exact absurd h (by decide)
    simp [parseLocationUS, h0, h]
  · intro raw a h1 habbr hc
    have h0 : normalize raw ≠ "" := by
      intro he
      rw [he] at habbr
      have hnone : abbrMatch "" = none := by decide
      rw [hnone] at habbr
      cases habbr
    have hc2 : a ∈ STATE_ABBRS := by simpa using hc
    rw [parseLocationUS_state_eq]
    simp [h0, h1, habbr, hc2]
  · intro raw h0 h1 habbr
    rw [parseLocationUS_state_eq]
    simp [h0, h1, habbr]

theorem parse_location_priority_witness :
    (includesStr (lowerStr (normalize (some "Remote - US"))) "remote" = true ∧
      parseLocationUS (some "Remote - US") =
        { city := some "Remote", state := none })
    ∧ (includesStr (lowerStr (normalize (some "Kansas City, MO"))) "remote" =
          false ∧
        abbrMatch (normalize (some "Kansas City, MO")) = some "MO" ∧
        STATE_ABBRS.contains "MO" = true ∧
        (parseLocationUS (some "Kansas City, MO")).state = some "MO") :=
  ⟨⟨by decide, parse_location_priority.1 _ (by decide)⟩,
   ⟨by decide, by decide, by decide,
    parse_location_priority.2.1 _ "MO" (by decide) (by decide) (by decide)⟩⟩

/-! ## The no-region branch (C8) -/

/-- C8 counterexample: `"Boca Raton"` determines no region, yet the parser
returns a non-null city — the claim's "null city and null region" does not
hold on the code. -/
theorem parse_location_no_region_cex :
    (parseLocationUS (some "Boca Raton")).state = none ∧
      (parseLocationUS (some "Boca Raton")).city = some "Boca Raton" := by
  decide

/-- C8 (amended): when no region can be determined (and the input is
non-empty and not remote-marked), the region is null but the city is still
extracted best-effort — the first comma segment, or the whole text for a
single-segment input, when it is not street-address-like and not
"united states", else null; the parse result itself carries no raw text —
the caller keeps the (trimmed) raw location in `location_raw` regardless
of the parse outcome. -/
theorem parse_location_no_region :
    (∀ raw : Option String,
        normalize raw ≠ "" →
        includesStr (lowerStr (normalize raw)) "remote" = false →
        (parseLocationUS raw).state = none →
        (parseLocationUS raw).city = noRegionCity (normalize raw))
    ∧ ∀ (j : Posting) (slug : String) (t : Nat),
        (buildRow j slug t).location_raw = postingLocationRaw j := by
  constructor
  · intro raw h0 h1 hs
    simp only [parseLocationUS, if_neg h0, h1, Bool.false_eq_true, if_false]
      at hs ⊢
    rw [hs]
    simp [noRegionCity]
  · intro j slug t
    rfl

theorem parse_location_no_region_witness :
    (normalize (some "Paris, France") ≠ "" ∧
      includesStr (lowerStr (normalize (some "Paris, France"))) "remote" =
        false ∧
      (parseLocationUS (some "Paris, France")).state = none) ∧
    (parseLocationUS (some "Paris, France")).city =
      noRegionCity (normalize (some "Paris, France")) :=
  ⟨⟨by decide, by decide, by decide⟩,
   parse_location_no_region.1 (some "Paris, France") (by decide) (by decide)
     (by decide)⟩

/-! ## Pay extraction (C9) -/

/-- C9 counterexample: `"OTE discussed $"` matches no structured pattern
and contains none of the claim's five keywords, yet the fallback fires —
the code's keyword alternation also contains `"ote"`. -/
theorem extract_pay_cex :
    extractPayFromText "OTE discussed $" =
        some "Pay mentioned (see listing)" ∧
      payPatternLoop payPatterns "OTE discussed $" = none ∧
      (["salary", "pay", "compensation", "hour", "year"].all
        (fun kw => !includesCI "OTE discussed $" kw)) = true := by
  decide

theorem payPatternLoop_eq_findSome (res : List RE) (t : String) :
    payPatternLoop res t =
      res.findSome? (fun re =>
        match reSearchStr re t with
        | some m => if m = "" then none else some (collapseTrim m)
        | none => none) := by
  induction res with
  | nil => rfl
  | cons r rs ih =>
    cases hm : reSearchStr r t with
    | some m =>
      by_cases he : m = "" <;>
        simp [payPatternLoop, List.findSome?_cons, hm, he, ih]
    | none => simp [payPatternLoop, List.findSome?_cons, hm, ih]

/-- C9 (amended): pay extraction returns the first (leftmost-preferred)
non-empty structured match, trimmed and whitespace-collapsed; when no
structured pattern matches, the generic marker is returned iff a currency
symbol co-occurs with one of the keywords "salary", "pay", "compensation",
"hour", "year" **or "ote"**, and null otherwise; `has_pay` is true iff the
extraction result is non-null; and the spec's examples behave as stated. -/
theorem extract_pay_spec :
    (∀ t : String,
        payPatternLoop payPatterns t =
          payPatterns.findSome? (fun re =>
            match reSearchStr re t with
            | some m => if m = "" then none else some (collapseTrim m)
            | none => none))
    ∧ (∀ t m : String, payPatternLoop payPatterns t = some m →
        extractPayFromText t = some m)
    ∧ (∀ t : String, payPatternLoop payPatterns t = none →
        extractPayFromText t =
          (if includesStr t "$" && hasPayKeyword t then
            some "Pay mentioned (see listing)"
          else none))
    ∧ (∀ title location content description : Option String,
        (computePayFields title location content description).has_pay = true ↔
          (computePayFields title location content description).pay_extracted ≠
            none)
    ∧ extractPayFromText "$120,000 - $150,000" = some "$120,000 - $150,000"
    ∧ extractPayFromText "Great opportunity" = none := by
  refine ⟨fun t => payPatternLoop_eq_findSome payPatterns t, ?_, ?_, ?_,
    by decide, by decide⟩
  · intro t m h
    unfold extractPayFromText
    rw [h]
  · intro t h
    unfold extractPayFromText
    rw [h]
  · intro title location content description
    unfold computePayFields
    cases h : extractPayFromText
        (stripHtml ((title.getD "") ++ "\n" ++ (location.getD "") ++ "\n" ++
          (content.getD "") ++ "\n" ++ (description.getD ""))) <;>
      simp [h]

theorem extract_pay_spec_witness :
    (payPatternLoop payPatterns "$25/hr" = some "$25/hr" ∧
      extractPayFromText "$25/hr" = some "$25/hr") ∧
    (payPatternLoop payPatterns "needs $ for pay" = none ∧
      extractPayFromText "needs $ for pay" =
        (if includesStr "needs $ for pay" "$" &&
            hasPayKeyword "needs $ for pay" then
          some "Pay mentioned (see listing)"
        else none)) :=
  ⟨⟨by decide, extract_pay_spec.2.1 "$25/hr" "$25/hr" (by decide)⟩,
   ⟨by decide, extract_pay_spec.2.2.1 "needs $ for pay" (by decide)⟩⟩

/-! ## Saved-search predicate (C4) -/

theorem isPrefix_append_space (n : List Char) (hn : ' ' ∉ n) :
    ∀ x y : List Char,
      isPrefixChars n (x ++ ' ' :: y) = isPrefixChars n x := by
  induction n with
  | nil => intro x y; cases x <;> rfl
  | cons c n ih =>
    intro x y
    have hc : c ≠ ' ' := fun h => hn (h ▸ List.mem_cons_self c n)
    have hn2 : ' ' ∉ n := fun h => hn (List.mem_cons_of_mem c h)
    cases x with
    | nil =>
      simp [isPrefixChars, hc]
    | cons a x =>
      simp [isPrefixChars, ih hn2]

theorem isSubstr_append_space (n : List Char) (hn : ' ' ∉ n) :
    ∀ x y : List Char,
      isSubstrChars n (x ++ ' ' :: y) =
        (isSubstrChars n x || isSubstrChars n y) := by
  intro x
  induction x with
  | nil =>
    intro y
    show (isPrefixChars n (' ' :: y) || isSubstrChars n y) = _
    rw [show isPrefixChars n (' ' :: y) =
        isPrefixChars n ([] ++ ' ' :: y) from rfl]
    rw [isPrefix_append_space n hn [] y]
    rfl
  | cons a x ih =>
    intro y
    show (isPrefixChars n ((a :: x) ++ ' ' :: y) ||
        isSubstrChars n (x ++ ' ' :: y)) = _
    rw [isPrefix_append_space n hn (a :: x) y, ih y]
    show _ = ((isPrefixChars n (a :: x) || isSubstrChars n x) ||
      isSubstrChars n y)
    rw [Bool.or_assoc]

theorem includes_remote_join (a b c : String) :
    includesStr (lowerStr (a ++ " " ++ b ++ " " ++ c)) "remote" =
      (includesCI a "remote" || includesCI b "remote" ||
        includesCI c "remote") := by
  show isSubstrChars "remote".data
      ((a ++ " " ++ b ++ " " ++ c).data.map Char.toLower) = _
  have hd : (a ++ " " ++ b ++ " " ++ c).data =
      a.data ++ " ".data ++ b.data ++ " ".data ++ c.data := by
    simp [String.data_append]
  rw [hd]
  have hsp : (" ".data.map Char.toLower) = [' '] := by decide
  simp only [List.map_append, hsp]
  have hn : ' ' ∉ "remote".data := by decide
  have hassoc :
      a.data.map Char.toLower ++ [' '] ++ b.data.map Char.toLower ++ [' '] ++
        c.data.map Char.toLower =
      a.data.map Char.toLower ++ ' ' ::
        (b.data.map Char.toLower ++ ' ' :: c.data.map Char.toLower) := by
    simp
  rw [hassoc, isSubstr_append_space _ hn, isSubstr_append_space _ hn]
  rw [Bool.or_assoc]
  rfl

/-- C4 counterexample: a job whose description alone contains the query
matches in the code, while the claim's haystack (title, company, location
fields only) rejects it. -/
theorem job_matches_cex :
    jobMatches
        { title := some "a", company := some "b", source := none,
          location_raw := none, location_city := none, location_state := none,
          description := some "zebra", has_pay := false }
        { q := some "zebra", company := none, state := none, source := none,
          remote_only := false, pay_only := false } = true ∧
      matchesSpecOrig
        { title := some "a", company := some "b", source := none,
          location_raw := none, location_city := none, location_state := none,
          description := some "zebra", has_pay := false }
        { q := some "zebra", company := none, state := none, source := none,
          remote_only := false, pay_only := false } = false := by
  decide

/-- C4 (amended): `matches(J, F)` holds iff every explicitly set field of
`F` agrees with `J` per the §4.4 per-field semantics, where the free-text
query is matched against the concatenation of title, company, the location
fields **and the description**; a filter with every field unset matches
every job. -/
theorem job_matches_spec :
    (∀ (job : Job) (f : SearchFilter),
        jobMatches job f = matchesSpecAmended job f)
    ∧ ∀ job : Job, jobMatches job emptyFilter = true := by
  constructor
  · intro job f
    unfold jobMatches matchesSpecAmended companyOkSpec stateOkSpec
      sourceOkSpec remoteOkSpec payOkSpec qOkSpecAmended
    rw [includes_remote_join]
  · intro job
    simp [jobMatches, emptyFilter, norm]

/-! ## Delivery dispatcher (C6) -/

/-- C6 counterexample: on a failing send the delivery row's status is
`"sent"` — written before the send — and stays `"sent"`; no `"failed"`
status is ever written (the run merely aborts). -/
theorem dispatch_delivery_cex :
    statusesWritten (dispatchDelivery false false 3).1 = ["sent"] ∧
      (dispatchDelivery false false 3).2 = false := by
  decide

/-- C6 (amended): the delivery row is written before the send with status
`"sent"` (or `"dry_run"` under dry-run); a successful send leaves it
`"sent"`; a failing send aborts the run with the status still `"sent"` and
the matched count intact (`"failed"` is never written); dry-run writes
`"dry_run"` and performs no send call. -/
theorem dispatch_delivery_spec :
    (∀ (sendOk : Bool) (n : Nat),
        dispatchDelivery true sendOk n =
          ([DeliveryEv.insertDelivery "dry_run" n], true))
    ∧ (∀ n : Nat,
        dispatchDelivery false true n =
          ([DeliveryEv.insertDelivery "sent" n, DeliveryEv.resendCall], true))
    ∧ (∀ n : Nat,
        dispatchDelivery false false n =
          ([DeliveryEv.insertDelivery "sent" n, DeliveryEv.resendCall], false))
    ∧ (∀ (dryRun sendOk : Bool) (n : Nat),
        (dispatchDelivery dryRun sendOk n).1.contains DeliveryEv.resendCall =
          !dryRun)
    ∧ ∀ (dryRun sendOk : Bool) (n : Nat),
        statusesWritten (dispatchDelivery dryRun sendOk n).1 =
          [if dryRun then "dry_run" else "sent"] := by
  refine ⟨?_, ?_, ?_, ?_, ?_⟩ <;> intros <;>
    first
    | rfl
    | (rename_i dryRun sendOk n
       cases dryRun <;> cases sendOk <;>
         simp [dispatchDelivery, statusesWritten, List.contains])

/-! ## Alert dedup (C1) -/

theorem iap_mono (sid : Nat) :
    ∀ (ids : List Nat) (acc : List LedgerPair × List Nat) (p : LedgerPair),
      p ∈ acc.1 → p ∈ (ids.foldl (alertPairStep sid) acc).1 := by
  intro ids
  induction ids with
  | nil => intro acc p h; exact h
  | cons i ids ih =>
    intro acc p h
    simp only [List.foldl_cons]
    refine ih _ p ?_
    unfold alertPairStep
    by_cases hm : (sid, i) ∈ acc.1
    · rw [if_pos hm]; exact h
    · rw [if_neg hm]; simp [h]

theorem iap_mem (sid : Nat) :
    ∀ (ids : List Nat) (acc : List LedgerPair × List Nat) (j : Nat),
      j ∈ ids → (sid, j) ∈ (ids.foldl (alertPairStep sid) acc).1 := by
  intro ids
  induction ids with
  | nil => intro acc j h; cases h
  | cons i ids ih =>
    intro acc j h
    simp only [List.foldl_cons]
    rcases List.mem_cons.mp h with h | h
    · subst h
      refine iap_mono sid ids _ _ ?_
      unfold alertPairStep
      by_cases hm : (sid, j) ∈ acc.1
      · rw [if_pos hm]; exact hm
      · rw [if_neg hm]; simp
    · exact ih _ j h

theorem iap_new_not_old (sid : Nat) :
    ∀ (ids : List Nat) (acc : List LedgerPair × List Nat) (j : Nat),
      j ∈ (ids.foldl (alertPairStep sid) acc).2 →
      j ∈ acc.2 ∨ (sid, j) ∉ acc.1 := by
  intro ids
  induction ids with
  | nil => intro acc j h; exact Or.inl h
  | cons i ids ih =>
    intro acc j h
    simp only [List.foldl_cons] at h
    rcases ih _ j h with h2 | h2
    · unfold alertPairStep at h2
      by_cases hm : (sid, i) ∈ acc.1
      · rw [if_pos hm] at h2; exact Or.inl h2
      · rw [if_neg hm] at h2
        simp only [List.mem_append, List.mem_singleton] at h2
        rcases h2 with h2 | h2
        · exact Or.inl h2
        · subst h2; exact Or.inr hm
    · unfold alertPairStep at h2
      by_cases hm : (sid, i) ∈ acc.1
      · rw [if_pos hm] at h2; exact Or.inr h2
      · rw [if_neg hm] at h2
        simp only [List.mem_append, List.mem_singleton] at h2
        push_neg at h2
        exact Or.inr h2.1

theorem iap_new_sub (sid : Nat) :
    ∀ (ids : List Nat) (acc : List LedgerPair × List Nat) (j : Nat),
      j ∈ (ids.foldl (alertPairStep sid) acc).2 → j ∈ acc.2 ∨ j ∈ ids := by
  intro ids
  induction ids with
  | nil => intro acc j h; exact Or.inl h
  | cons i ids ih =>
    intro acc j h
    simp only [List.foldl_cons] at h
    rcases ih _ j h with h2 | h2
    · unfold alertPairStep at h2
      by_cases hm : (sid, i) ∈ acc.1
      · rw [if_pos hm] at h2; exact Or.inl h2
      · rw [if_neg hm] at h2
        simp only [List.mem_append, List.mem_singleton] at h2
        rcases h2 with h2 | h2
        · exact Or.inl h2
        · subst h2; exact Or.inr (List.mem_cons_self _ _)
    · exact Or.inr (List.mem_cons_of_mem _ h2)

theorem iap_noop (sid : Nat) :
    ∀ (ids : List Nat) (acc : List LedgerPair × List Nat),
      (∀ j ∈ ids, (sid, j) ∈ acc.1) →
      ids.foldl (alertPairStep sid) acc = acc := by
  intro ids
  induction ids with
  | nil => intro acc _; rfl
  | cons i ids ih =>
    intro acc h
    simp only [List.foldl_cons]
    rw [show alertPairStep sid acc i = acc from
      by unfold alertPairStep; rw [if_pos (h i (List.mem_cons_self _ _))]]
    exact ih acc fun j hj => h j (List.mem_cons_of_mem _ hj)

theorem ass_mono (l : List LedgerPair) (sid : Nat) (m : List Nat)
    (p : LedgerPair) (h : p ∈ l) : p ∈ (alertSearchStep l sid m).1 := by
  unfold alertSearchStep
  by_cases hm : m.isEmpty
  · rw [if_pos hm]; exact h
  · rw [if_neg hm]
    have hmem : p ∈ (insertAlertPairs l sid m).1 := iap_mono sid m (l, []) p h
    by_cases he : (insertAlertPairs l sid m).2.isEmpty
    · rw [if_pos he]; exact hmem
    · rw [if_neg he]; exact hmem

theorem ass_post (l : List LedgerPair) (sid : Nat) (m : List Nat) (j : Nat)
    (h : j ∈ m) : (sid, j) ∈ (alertSearchStep l sid m).1 := by
  unfold alertSearchStep
  have hne : ¬m.isEmpty := by
    cases m with
    | nil => cases h
    | cons a t => simp
  rw [if_neg hne]
  have hmem : (sid, j) ∈ (insertAlertPairs l sid m).1 := iap_mem sid m (l, []) j h
  by_cases he : (insertAlertPairs l sid m).2.isEmpty
  · rw [if_pos he]; exact hmem
  · rw [if_neg he]; exact hmem

theorem ass_deliv (l : List LedgerPair) (sid : Nat) (m : List Nat)
    (d : AlertDelivery) (h : (alertSearchStep l sid m).2 = some d) :
    d.sid = sid ∧ ∀ j ∈ d.jobIds,
      (sid, j) ∉ l ∧ (sid, j) ∈ (alertSearchStep l sid m).1 := by
  unfold alertSearchStep at h ⊢
  by_cases hm : m.isEmpty
  · rw [if_pos hm] at h; cases h
  · rw [if_neg hm] at h ⊢
    by_cases he : (insertAlertPairs l sid m).2.isEmpty
    · rw [if_pos he] at h; cases h
    · rw [if_neg he] at h ⊢
      cases h
      refine ⟨rfl, ?_⟩
      intro j hj
      constructor
      · rcases iap_new_not_old sid m (l, []) j hj with h2 | h2
        · cases h2
        · exact h2
      · rcases iap_new_sub sid m (l, []) j hj with h2 | h2
        · cases h2
        · exact iap_mem sid m (l, []) j h2

theorem ass_noop (l : List LedgerPair) (sid : Nat) (m : List Nat)
    (h : ∀ j ∈ m, (sid, j) ∈ l) : alertSearchStep l sid m = (l, none) := by
  unfold alertSearchStep
  by_cases hm : m.isEmpty
  · rw [if_pos hm]
  · rw [if_neg hm]
    have hins : insertAlertPairs l sid m = (l, []) := iap_noop sid m (l, []) h
    rw [hins]
    simp

theorem cyc_foldl_mono :
    ∀ (subs : List (Nat × List Nat))
      (acc : List LedgerPair × List AlertDelivery) (p : LedgerPair),
      p ∈ acc.1 → p ∈ (subs.foldl alertCycleStep acc).1 := by
  intro subs
  induction subs with
  | nil => intro acc p h; exact h
  | cons s subs ih =>
    intro acc p h
    simp only [List.foldl_cons]
    exact ih _ p (ass_mono _ _ _ p h)

theorem cyc_foldl_post :
    ∀ (subs : List (Nat × List Nat))
      (acc : List LedgerPair × List AlertDelivery) (sub : Nat × List Nat),
      sub ∈ subs → ∀ j ∈ sub.2,
        (sub.1, j) ∈ (subs.foldl alertCycleStep acc).1 := by
  intro subs
  induction subs with
  | nil => intro acc sub h; cases h
  | cons s subs ih =>
    intro acc sub h j hj
    simp only [List.foldl_cons]
    rcases List.mem_cons.mp h with h | h
    · subst h
      exact cyc_foldl_mono subs _ _ (ass_post acc.1 sub.1 sub.2 j hj)
    · exact ih _ sub h j hj

theorem cyc_foldl_noop :
    ∀ (subs : List (Nat × List Nat)) (l : List LedgerPair)
      (ds : List AlertDelivery),
      (∀ sub ∈ subs, ∀ j ∈ sub.2, (sub.1, j) ∈ l) →
      subs.foldl alertCycleStep (l, ds) = (l, ds) := by
  intro subs
  induction subs with
  | nil => intro l ds _; rfl
  | cons s subs ih =>
    intro l ds h
    simp only [List.foldl_cons]
    have hstep : alertCycleStep (l, ds) s = (l, ds) := by
      unfold alertCycleStep
      rw [ass_noop l s.1 s.2 (h s (List.mem_cons_self _ _))]
      simp
    rw [hstep]
    exact ih l ds fun sub hs => h sub (List.mem_cons_of_mem _ hs)

theorem cycleStep_inv (acc : List LedgerPair × List AlertDelivery)
    (sub : Nat × List Nat)
    (h1 : ∀ sid j, acc.2.countP (fun d => referencesPair d sid j) ≤ 1)
    (h2 : ∀ d ∈ acc.2, ∀ j ∈ d.jobIds, (d.sid, j) ∈ acc.1) :
    (∀ sid j, (alertCycleStep acc sub).2.countP
        (fun d => referencesPair d sid j) ≤ 1) ∧
    ∀ d ∈ (alertCycleStep acc sub).2, ∀ j ∈ d.jobIds,
      (d.sid, j) ∈ (alertCycleStep acc sub).1 := by
  rcases hres : (alertSearchStep acc.1 sub.1 sub.2).2 with _ | d0
  · constructor
    · intro sid j
      unfold alertCycleStep
      simp only [hres, List.append_nil]
      exact h1 sid j
    · intro d hd j hj
      unfold alertCycleStep at hd ⊢
      simp only [hres, List.append_nil] at hd
      exact ass_mono _ _ _ _ (h2 d hd j hj)
  · have hdel := ass_deliv acc.1 sub.1 sub.2 d0 hres
    constructor
    · intro sid j
      unfold alertCycleStep
      simp only [hres, List.countP_append]
      by_cases href : referencesPair d0 sid j = true
      · obtain ⟨hsid0, hj0⟩ : d0.sid = sid ∧ j ∈ d0.jobIds := by
          simpa [referencesPair] using href
        have hz : acc.2.countP (fun d => referencesPair d sid j) = 0 := by
          rw [List.countP_eq_zero]
          intro d' hd' habs
          obtain ⟨hsid', hjm'⟩ : d'.sid = sid ∧ j ∈ d'.jobIds := by
            simpa [referencesPair] using habs
          have hin : (d'.sid, j) ∈ acc.1 := h2 d' hd' j hjm'
          rw [hsid'] at hin
          have hsub : sid = sub.1 := by rw [← hsid0, hdel.1]
          rw [hsub] at hin
          exact (hdel.2 j hj0).1 hin
        rw [hz]
        simp only [List.countP_cons, List.countP_nil, Nat.zero_add]
        split <;> simp
      · have hz : List.countP (fun d => referencesPair d sid j) [d0] = 0 := by
          simp only [List.countP_cons, List.countP_nil, Nat.zero_add]
          simp [href]
        rw [hz, Nat.add_zero]
        exact h1 sid j
    · intro d hd j hj
      unfold alertCycleStep at hd ⊢
      simp only [hres] at hd
      rcases List.mem_append.mp hd with hd | hd
      · exact ass_mono _ _ _ _ (h2 d hd j hj)
      · have hd0 : d = d0 := by simpa using hd
        subst hd0
        rw [hdel.1]
        exact (hdel.2 j hj).2

theorem cyc_foldl_inv :
    ∀ (subs : List (Nat × List Nat))
      (acc : List LedgerPair × List AlertDelivery),
      (∀ sid j, acc.2.countP (fun d => referencesPair d sid j) ≤ 1) →
      (∀ d ∈ acc.2, ∀ j ∈ d.jobIds, (d.sid, j) ∈ acc.1) →
      (∀ sid j, (subs.foldl alertCycleStep acc).2.countP
          (fun d => referencesPair d sid j) ≤ 1) ∧
      ∀ d ∈ (subs.foldl alertCycleStep acc).2, ∀ j ∈ d.jobIds,
        (d.sid, j) ∈ (subs.foldl alertCycleStep acc).1 := by
  intro subs
  induction subs with
  | nil => intro acc h1 h2; exact ⟨h1, h2⟩
  | cons s subs ih =>
    intro acc h1 h2
    simp only [List.foldl_cons]
    have hstep := cycleStep_inv acc s h1 h2
    exact ih _ hstep.1 hstep.2

theorem cyc_acc_append :
    ∀ (subs : List (Nat × List Nat)) (l : List LedgerPair)
      (ds : List AlertDelivery),
      subs.foldl alertCycleStep (l, ds) =
        ((subs.foldl alertCycleStep (l, [])).1,
          ds ++ (subs.foldl alertCycleStep (l, [])).2) := by
  intro subs
  induction subs with
  | nil => intro l ds; simp
  | cons s subs ih =>
    intro l ds
    simp only [List.foldl_cons]
    have hstep : alertCycleStep (l, ds) s =
        ((alertCycleStep (l, []) s).1, ds ++ (alertCycleStep (l, []) s).2) := by
      unfold alertCycleStep
      simp
    rw [hstep]
    cases hstep0 : alertCycleStep (l, []) s with
    | mk l1 ds1 =>
      simp only
      rw [ih l1 (ds ++ ds1), ih l1 ds1]
      simp

theorem historyStep_eq_foldl (l : List LedgerPair) (ds : List AlertDelivery)
    (subs : List (Nat × List Nat)) :
    alertHistoryStep (l, ds) subs = subs.foldl alertCycleStep (l, ds) := by
  unfold alertHistoryStep runAlertCycle
  rw [cyc_acc_append subs l ds]

/-- C1: across any operational history of alert cycles starting from an
empty ledger, every `(subscription, job)` pair is referenced by at most
one delivery; and re-running a cycle over an unchanged window and the
resulting ledger produces zero additional deliveries (and no ledger
change). -/
theorem alert_dedup :
    (∀ (cycles : List (List (Nat × List Nat))) (sid j : Nat),
        (runAlertHistory cycles).2.countP
          (fun d => referencesPair d sid j) ≤ 1)
    ∧ ∀ (l : List LedgerPair) (subs : List (Nat × List Nat)),
        runAlertCycle (runAlertCycle l subs).1 subs =
          ((runAlertCycle l subs).1, []) := by
  constructor
  · intro cycles sid j
    suffices h : ∀ (cs : List (List (Nat × List Nat)))
        (acc : List LedgerPair × List AlertDelivery),
        (∀ sid j, acc.2.countP (fun d => referencesPair d sid j) ≤ 1) →
        (∀ d ∈ acc.2, ∀ j ∈ d.jobIds, (d.sid, j) ∈ acc.1) →
        ∀ sid j, (cs.foldl alertHistoryStep acc).2.countP
          (fun d => referencesPair d sid j) ≤ 1 by
      exact h cycles ([], []) (by intro sid j; simp) (by intro d hd; cases hd)
        sid j
    intro cs
    induction cs with
    | nil => intro acc h1 _ sid j; exact h1 sid j
    | cons c cs ih =>
      intro acc h1 h2 sid j
      simp only [List.foldl_cons]
      cases hacc : acc with
      | mk l0 ds0 =>
        rw [historyStep_eq_foldl]
        rw [hacc] at h1 h2
        have hinv := cyc_foldl_inv c (l0, ds0) h1 h2
        exact ih _ hinv.1 hinv.2 sid j
  · intro l subs
    show runAlertCycle (runAlertCycle l subs).1 subs = _
    unfold runAlertCycle
    exact cyc_foldl_noop subs _ []
      fun sub hs j hj => cyc_foldl_post subs (l, []) sub hs j hj

/-! ## Upsert idempotence (C2) -/

theorem setLastSeen_buildRow (j : Posting) (slug : String) (t1 t2 : Nat) :
    setLastSeen t2 (buildRow j slug t1) = buildRow j slug t2 := by
  simp only [setLastSeen, buildRow]

theorem buildRows_map_setLastSeen (js : List Posting) (slug : String)
    (t1 t2 : Nat) :
    buildRows js slug t2 = (buildRows js slug t1).map (setLastSeen t2) := by
  show (js.filter keepPosting).map (fun j => buildRow j slug t2) =
    ((js.filter keepPosting).map (fun j => buildRow j slug t1)).map
      (setLastSeen t2)
  rw [List.map_map]
  apply List.map_congr_left
  intro j _
  exact (setLastSeen_buildRow j slug t1 t2).symm

theorem setLastSeen_fingerprint (t : Nat) (r : Row) :
    (setLastSeen t r).fingerprint = r.fingerprint := rfl

theorem map_fp_map_setLastSeen (t : Nat) (rows : List Row) :
    ((rows.map (setLastSeen t)).map (fun r => r.fingerprint)) =
      rows.map (fun r => r.fingerprint) := by
  rw [List.map_map]
  rfl

theorem map_fp_replace (cat : List Row) (row : Row) :
    (cat.map (fun r => if row.fingerprint = r.fingerprint then row else r)).map
        (fun r => r.fingerprint) =
      cat.map (fun r => r.fingerprint) := by
  rw [List.map_map]
  apply List.map_congr_left
  intro r _
  dsimp only [Function.comp]
  split
  next hh => exact hh
  next => rfl

theorem upsertOne_replace (cat : List Row) (row : Row)
    (h : row.fingerprint ∈ cat.map (fun r => r.fingerprint)) :
    upsertOne cat row =
      cat.map (fun r => if row.fingerprint = r.fingerprint then row else r) := by
  unfold upsertOne
  rw [if_pos]
  rw [List.any_eq_true]
  obtain ⟨r, hr, he⟩ := List.mem_map.mp h
  exact ⟨r, hr, by simp [he]⟩

theorem upsertOne_append (cat : List Row) (row : Row)
    (h : row.fingerprint ∉ cat.map (fun r => r.fingerprint)) :
    upsertOne cat row = cat ++ [row] := by
  unfold upsertOne
  rw [if_neg]
  intro habs
  apply h
  rw [List.any_eq_true] at habs
  obtain ⟨r, hr, he⟩ := habs
  exact List.mem_map.mpr ⟨r, hr, by simpa using he⟩

theorem fps_sub_upsertOne (cat : List Row) (row : Row) (x : String)
    (h : x ∈ cat.map (fun r => r.fingerprint)) :
    x ∈ (upsertOne cat row).map (fun r => r.fingerprint) := by
  by_cases hm : row.fingerprint ∈ cat.map (fun r => r.fingerprint)
  · rw [upsertOne_replace cat row hm, map_fp_replace]
    exact h
  · rw [upsertOne_append cat row hm, List.map_append]
    exact List.mem_append.mpr (Or.inl h)

theorem fps_head_upsertOne (cat : List Row) (row : Row) :
    row.fingerprint ∈ (upsertOne cat row).map (fun r => r.fingerprint) := by
  by_cases hm : row.fingerprint ∈ cat.map (fun r => r.fingerprint)
  · rw [upsertOne_replace cat row hm, map_fp_replace]
    exact hm
  · rw [upsertOne_append cat row hm, List.map_append]
    exact List.mem_append.mpr (Or.inr (by simp))

theorem fps_sub_upsertJobs :
    ∀ (rows : List Row) (cat : List Row) (x : String),
      x ∈ cat.map (fun r => r.fingerprint) →
      x ∈ (upsertJobs cat rows).map (fun r => r.fingerprint) := by
  intro rows
  induction rows with
  | nil => intro cat x h; exact h
  | cons row rows ih =>
    intro cat x h
    exact ih _ x (fps_sub_upsertOne cat row x h)

theorem mem_fps_upsertJobs :
    ∀ (rows : List Row) (cat : List Row) (row : Row),
      row ∈ rows →
      row.fingerprint ∈ (upsertJobs cat rows).map (fun r => r.fingerprint) := by
  intro rows
  induction rows with
  | nil => intro cat row h; cases h
  | cons x rows ih =>
    intro cat row h
    rcases List.mem_cons.mp h with h | h
    · subst h
      exact fps_sub_upsertJobs rows (upsertOne cat row) _
        (fps_head_upsertOne cat row)
    · exact ih _ row h

theorem lastUpd_fingerprint :
    ∀ (rows : List Row) (r : Row),
      (lastUpd rows r).fingerprint = r.fingerprint := by
  intro rows
  induction rows with
  | nil => intro r; rfl
  | cons x rows ih =>
    intro r
    show (lastUpd rows (if x.fingerprint = r.fingerprint then x else r)).fingerprint = _
    rw [ih]
    split
    next hh => exact hh
    next => rfl

theorem lastUpd_not_mem :
    ∀ (rows : List Row) (r : Row),
      r.fingerprint ∉ rows.map (fun x => x.fingerprint) →
      lastUpd rows r = r := by
  intro rows
  induction rows with
  | nil => intro r _; rfl
  | cons x rows ih =>
    intro r h
    simp only [List.map_cons, List.mem_cons, not_or] at h
    show lastUpd rows (if x.fingerprint = r.fingerprint then x else r) = r
    rw [if_neg (fun hh => h.1 hh.symm)]
    exact ih r (by simpa using h.2)

theorem lastUpd_default_irrel :
    ∀ (rows : List Row) (r r2 : Row),
      r.fingerprint = r2.fingerprint →
      r.fingerprint ∈ rows.map (fun x => x.fingerprint) →
      lastUpd rows r = lastUpd rows r2 := by
  intro rows
  induction rows with
  | nil => intro r r2 _ h; cases h
  | cons x rows ih =>
    intro r r2 he hm
    show lastUpd rows (if x.fingerprint = r.fingerprint then x else r) =
      lastUpd rows (if x.fingerprint = r2.fingerprint then x else r2)
    by_cases hx : x.fingerprint = r.fingerprint
    · rw [if_pos hx, if_pos (hx.trans he)]
    · rw [if_neg hx, if_neg (fun hh => hx (hh.trans he.symm))]
      apply ih r r2 he
      simp only [List.map_cons, List.mem_cons] at hm
      rcases hm with hm | hm
      · exact absurd hm.symm hx
      · exact hm

theorem lastUpd_map_setLastSeen (t : Nat) :
    ∀ (rows : List Row) (d : Row),
      lastUpd (rows.map (setLastSeen t)) (setLastSeen t d) =
        setLastSeen t (lastUpd rows d) := by
  intro rows
  induction rows with
  | nil => intro d; rfl
  | cons x rows ih =>
    intro d
    show lastUpd (rows.map (setLastSeen t))
        (if x.fingerprint = d.fingerprint then
          setLastSeen t x else setLastSeen t d) =
      setLastSeen t (lastUpd rows (if x.fingerprint = d.fingerprint then x
        else d))
    by_cases hx : x.fingerprint = d.fingerprint
    · rw [if_pos hx, if_pos hx]
      exact ih x
    · rw [if_neg hx, if_neg hx]
      exact ih d

theorem upsertJobs_all_present :
    ∀ (rows : List Row) (cat : List Row),
      (∀ row ∈ rows, row.fingerprint ∈ cat.map (fun r => r.fingerprint)) →
      upsertJobs cat rows = cat.map (lastUpd rows) := by
  intro rows
  induction rows with
  | nil =>
    intro cat _
    exact (List.map_id cat).symm
  | cons row rows ih =>
    intro cat h
    have hmem : row.fingerprint ∈ cat.map (fun r => r.fingerprint) :=
      h row (List.mem_cons_self _ _)
    have hpre : ∀ r2 ∈ rows, r2.fingerprint ∈
        (cat.map (fun r => if row.fingerprint = r.fingerprint then row
          else r)).map (fun r => r.fingerprint) := by
      intro r2 hr2
      rw [map_fp_replace]
      exact h r2 (List.mem_cons_of_mem _ hr2)
    show upsertJobs (upsertOne cat row) rows = _
    rw [upsertOne_replace cat row hmem, ih _ hpre, List.map_map]
    rfl

theorem mem_upsertOne_fp_eq (cat : List Row) (row r : Row)
    (hr : r ∈ upsertOne cat row) (he : r.fingerprint = row.fingerprint) :
    r = row := by
  unfold upsertOne at hr
  split at hr
  next hany =>
    obtain ⟨r0, hr0, heq⟩ := List.mem_map.mp hr
    by_cases hc : row.fingerprint = r0.fingerprint
    · rw [if_pos hc] at heq
      exact heq.symm
    · rw [if_neg hc] at heq
      subst heq
      exact absurd he.symm hc
  next hany =>
    rcases List.mem_append.mp hr with hr | hr
    · exfalso
      apply hany
      rw [List.any_eq_true]
      exact ⟨r, hr, by simp [he]⟩
    · simpa using hr

theorem mem_upsertJobs_not_batch :
    ∀ (rows : List Row) (cat : List Row) (r : Row),
      r ∈ upsertJobs cat rows →
      r.fingerprint ∉ rows.map (fun x => x.fingerprint) →
      r ∈ cat := by
  intro rows
  induction rows with
  | nil => intro cat r h _; exact h
  | cons row rows ih =>
    intro cat r h hn
    simp only [List.map_cons, List.mem_cons, not_or] at hn
    have h2 : r ∈ upsertOne cat row := ih _ r h (by simpa using hn.2)
    unfold upsertOne at h2
    split at h2
    next hany =>
      obtain ⟨r0, hr0, heq⟩ := List.mem_map.mp h2
      by_cases hc : row.fingerprint = r0.fingerprint
      · rw [if_pos hc] at heq
        subst heq
        exact absurd rfl hn.1
      · rw [if_neg hc] at heq
        subst heq
        exact hr0
    next hany =>
      rcases List.mem_append.mp h2 with h2 | h2
      · exact h2
      · have : r = row := by simpa using h2
        subst this
        exact absurd rfl hn.1

theorem mem_upsertJobs_batch :
    ∀ (rows : List Row) (cat : List Row) (r : Row),
      r ∈ upsertJobs cat rows →
      r.fingerprint ∈ rows.map (fun x => x.fingerprint) →
      r = lastUpd rows r := by
  intro rows
  induction rows with
  | nil => intro cat r _ hm; cases hm
  | cons row rows ih =>
    intro cat r h hm
    by_cases hmem : r.fingerprint ∈ rows.map (fun x => x.fingerprint)
    · have h6 : r = lastUpd rows r := ih _ r h hmem
      show r = lastUpd rows (if row.fingerprint = r.fingerprint then row else r)
      by_cases hc : row.fingerprint = r.fingerprint
      · rw [if_pos hc]
        rw [lastUpd_default_irrel rows row r hc (hc ▸ hmem)]
        exact h6
      · rw [if_neg hc]
        exact h6
    · have hfr : r.fingerprint = row.fingerprint := by
        simp only [List.map_cons, List.mem_cons] at hm
        rcases hm with hm | hm
        · exact hm
        · exact absurd hm hmem
      have h7 : r ∈ upsertOne cat row :=
        mem_upsertJobs_not_batch rows (upsertOne cat row) r h hmem
      have h8 : r = row := mem_upsertOne_fp_eq cat row r h7 hfr
      subst h8
      show r = lastUpd rows (if r.fingerprint = r.fingerprint then r else r)
      rw [if_pos rfl]
      exact (lastUpd_not_mem rows r (by simpa using hmem)).symm

theorem forall2_map_self {α : Type} (R : α → α → Prop) (f : α → α) :
    ∀ l : List α, (∀ x ∈ l, R x (f x)) → List.Forall₂ R l (l.map f) := by
  intro l
  induction l with
  | nil => intro _; exact List.Forall₂.nil
  | cons x l ih =>
    intro h
    exact List.Forall₂.cons (h x (List.mem_cons_self _ _))
      (ih fun y hy => h y (List.mem_cons_of_mem _ hy))

/-- C2: re-running the sync with identical upstream data is idempotent —
the second upsert, keyed on fingerprint, creates no new catalog row (the
fingerprint column is unchanged row-for-row) and changes no field of any
row other than `last_seen_at`, which becomes the second run's timestamp
(`is_active` was already forced `true` by the first run and stays
`true`). -/
theorem sync_idempotent (cat : List Row) (js : List Posting) (slug : String)
    (t1 t2 : Nat) :
    (upsertJobs (upsertJobs cat (buildRows js slug t1))
        (buildRows js slug t2)).map (fun r => r.fingerprint) =
      (upsertJobs cat (buildRows js slug t1)).map (fun r => r.fingerprint)
    ∧ List.Forall₂ (fun r1 r2 => r2 = r1 ∨ r2 = setLastSeen t2 r1)
        (upsertJobs cat (buildRows js slug t1))
        (upsertJobs (upsertJobs cat (buildRows js slug t1))
          (buildRows js slug t2)) := by
  have hpre : ∀ row ∈ buildRows js slug t2,
      row.fingerprint ∈ (upsertJobs cat (buildRows js slug t1)).map
        (fun r => r.fingerprint) := by
    intro row hrow
    rw [buildRows_map_setLastSeen js slug t1 t2] at hrow
    obtain ⟨row1, hrow1, he⟩ := List.mem_map.mp hrow
    rw [← he, setLastSeen_fingerprint]
    exact mem_fps_upsertJobs _ cat row1 hrow1
  have hall := upsertJobs_all_present (buildRows js slug t2)
    (upsertJobs cat (buildRows js slug t1)) hpre
  constructor
  · rw [hall, List.map_map]
    apply List.map_congr_left
    intro r _
    exact lastUpd_fingerprint _ r
  · rw [hall]
    apply forall2_map_self
    intro r1 hr1
    rw [buildRows_map_setLastSeen js slug t1 t2]
    by_cases hm : r1.fingerprint ∈ (buildRows js slug t1).map
        (fun x => x.fingerprint)
    · right
      have h6 : r1 = lastUpd (buildRows js slug t1) r1 :=
        mem_upsertJobs_batch _ cat r1 hr1 hm
      have hm2 : r1.fingerprint ∈
          ((buildRows js slug t1).map (setLastSeen t2)).map
            (fun x => x.fingerprint) := by
        rw [map_fp_map_setLastSeen]
        exact hm
      rw [lastUpd_default_irrel ((buildRows js slug t1).map (setLastSeen t2))
        r1 (setLastSeen t2 r1) rfl hm2]
      rw [lastUpd_map_setLastSeen]
      rw [← h6]
    · left
      have hm2 : r1.fingerprint ∉
          ((buildRows js slug t1).map (setLastSeen t2)).map
            (fun x => x.fingerprint) := by
        rw [map_fp_map_setLastSeen]
        exact hm
      exact lastUpd_not_mem _ r1 hm2

/-! ## Staleness sweep (C5) -/

theorem staleUpdate_fingerprint (slug : String) (t : Nat) (r : Row) :
    (staleUpdate slug t r).fingerprint = r.fingerprint := by
  unfold staleUpdate
  split <;> rfl

theorem staleUpdate_of_not_lt (slug : String) (t : Nat) (r : Row)
    (h : ¬r.last_seen_at < t) : staleUpdate slug t r = r := by
  unfold staleUpdate
  split
  next hc =>
    exfalso
    simp only [Bool.and_eq_true, decide_eq_true_eq] at hc
    exact h hc.2
  next => rfl

theorem staleUpdate_active (slug : String) (t : Nat) (r : Row)
    (h1 : r.source = "greenhouse") (h2 : r.source_company = slug)
    (h3 : r.last_seen_at < t) :
    staleUpdate slug t r = { r with is_active := false } := by
  unfold staleUpdate
  split
  next => rfl
  next hc => exact absurd (by simp [h1, h2, h3]) hc

theorem buildRows_fields (js : List Posting) (slug : String) (t : Nat) :
    ∀ r ∈ buildRows js slug t,
      r.last_seen_at = t ∧ r.source_company = slug ∧ r.source = "greenhouse" := by
  intro r hr
  obtain ⟨j, _, rfl⟩ := List.mem_map.mp hr
  exact ⟨rfl, rfl, rfl⟩

theorem lastUpd_mem :
    ∀ (rows : List Row) (d : Row),
      d.fingerprint ∈ rows.map (fun x => x.fingerprint) →
      lastUpd rows d ∈ rows := by
  intro rows
  induction rows with
  | nil => intro d h; cases h
  | cons x rows ih =>
    intro d hm
    show lastUpd rows (if x.fingerprint = d.fingerprint then x else d) ∈
      x :: rows
    by_cases hx : x.fingerprint = d.fingerprint
    · rw [if_pos hx]
      by_cases hm2 : x.fingerprint ∈ rows.map (fun r => r.fingerprint)
      · exact List.mem_cons_of_mem _ (ih x hm2)
      · rw [lastUpd_not_mem rows x hm2]
        exact List.mem_cons_self _ _
    · rw [if_neg hx]
      have hm2 : d.fingerprint ∈ rows.map (fun r => r.fingerprint) := by
        simp only [List.map_cons, List.mem_cons] at hm
        rcases hm with hm | hm
        · exact absurd hm.symm hx
        · exact hm
      exact List.mem_cons_of_mem _ (ih d hm2)

/-- C5: the staleness sweep runs only after the source's own batch has
committed — on a persistence failure the sweep is skipped and the catalog
is untouched for that source; on success the trace is the committed batch
followed by the sweep; and a posting present in run N and absent in run
N+1 of the same source has `is_active = false` after run N+1. -/
theorem sync_staleness :
    (∀ (cat : List Row) (js : List Posting) (slug : String) (t : Nat),
        buildRows js slug t ≠ [] →
        syncSourceStep cat js slug t false = cat ∧
          SyncEv.sweep ∉ syncSourceEvents js slug t false)
    ∧ (∀ (js : List Posting) (slug : String) (t : Nat),
        buildRows js slug t ≠ [] →
        syncSourceEvents js slug t true =
          [SyncEv.upsertBatch (buildRows js slug t).length, SyncEv.sweep])
    ∧ ∀ (cat : List Row) (js1 js2 : List Posting) (slug : String)
        (t1 t2 : Nat) (r : Row) (f : String),
        t1 < t2 →
        f ∈ (buildRows js1 slug t1).map (fun x => x.fingerprint) →
        f ∉ (buildRows js2 slug t2).map (fun x => x.fingerprint) →
        r ∈ syncSourceStep (syncSourceStep cat js1 slug t1 true) js2 slug t2
          true →
        r.fingerprint = f →
        r.is_active = false := by
  refine ⟨?_, ?_, ?_⟩
  · intro cat js slug t hne
    have hb : (buildRows js slug t).isEmpty = false := by
      cases hbb : buildRows js slug t with
      | nil => exact absurd hbb hne
      | cons a l => rfl
    constructor
    · unfold syncSourceStep
      rw [hb]
      simp
    · unfold syncSourceEvents
      rw [hb]
      simp
  · intro js slug t hne
    have hb : (buildRows js slug t).isEmpty = false := by
      cases hbb : buildRows js slug t with
      | nil => exact absurd hbb hne
      | cons a l => rfl
    unfold syncSourceEvents
    rw [hb]
    simp
  · intro cat js1 js2 slug t1 t2 r f hlt hf1 hf2 hr hfp
    have hb1 : (buildRows js1 slug t1).isEmpty = false := by
      cases hbb : buildRows js1 slug t1 with
      | nil => rw [hbb] at hf1; simp at hf1
      | cons a l => rfl
    -- run N: non-empty committed batch, then sweep
    have hinner : syncSourceStep cat js1 slug t1 true =
        markStaleInactive (upsertJobs cat (buildRows js1 slug t1)) slug t1 := by
      unfold syncSourceStep
      rw [hb1]
      simp
    rw [hinner] at hr
    -- run N + 1: r comes from sweeping a catalog in which the row kept its
    -- run-N state (its fingerprint is not in the second batch)
    have hr2 : ∃ rmid,
        rmid ∈ markStaleInactive (upsertJobs cat (buildRows js1 slug t1))
          slug t1 ∧
        r = staleUpdate slug t2 rmid := by
      unfold syncSourceStep at hr
      by_cases hb2 : (buildRows js2 slug t2).isEmpty = true
      · rw [if_pos hb2] at hr
        obtain ⟨rmid, hmid, heq⟩ := List.mem_map.mp hr
        exact ⟨rmid, hmid, heq.symm⟩
      · rw [if_neg hb2] at hr
        simp only [if_true] at hr
        obtain ⟨rmid, hmid, heq⟩ := List.mem_map.mp hr
        refine ⟨rmid, ?_, heq.symm⟩
        apply mem_upsertJobs_not_batch _ _ rmid hmid
        have : rmid.fingerprint = f := by
          rw [← hfp, ← heq, staleUpdate_fingerprint]
        rw [this]
        exact hf2
    obtain ⟨rmid, hmid, hreq⟩ := hr2
    obtain ⟨rbase, hbase, hbeq⟩ := List.mem_map.mp hmid
    -- the run-N row for this fingerprint is a batch row of run N
    have hfpmid : rmid.fingerprint = f := by
      rw [← hfp, hreq, staleUpdate_fingerprint]
    have hfbase : rbase.fingerprint = f := by
      rw [← hfpmid, ← hbeq, staleUpdate_fingerprint]
    have hlast : rbase = lastUpd (buildRows js1 slug t1) rbase :=
      mem_upsertJobs_batch _ cat rbase hbase (by rw [hfbase]; exact hf1)
    have hmemrows : lastUpd (buildRows js1 slug t1) rbase ∈
        buildRows js1 slug t1 :=
      lastUpd_mem _ rbase (by rw [hfbase]; exact hf1)
    rw [← hlast] at hmemrows
    obtain ⟨hlseen, hcomp, hsrc⟩ := buildRows_fields js1 slug t1 rbase hmemrows
    -- the run-N sweep does not touch a row last seen in run N
    have hmid_eq : rmid = rbase := by
      rw [← hbeq, staleUpdate_of_not_lt slug t1 rbase (by rw [hlseen]; omega)]
    -- the run-N+1 sweep deactivates it
    rw [hreq, hmid_eq,
      staleUpdate_active slug t2 rbase hsrc hcomp (by rw [hlseen]; exact hlt)]

theorem sync_staleness_witness :
    (staleUpdate "acme" 1
        (buildRow
          { title := some "Analyst", absolute_url := some "https://x/1",
            jid := some "1", location_name := none, location_location := none,
            content := none, updated_at := none }
          "acme" 0)).is_active = false :=
  sync_staleness.2.2 []
    [{ title := some "Analyst", absolute_url := some "https://x/1",
       jid := some "1", location_name := none, location_location := none,
       content := none, updated_at := none }]
    [] "acme" 0 1
    (staleUpdate "acme" 1
      (buildRow
        { title := some "Analyst", absolute_url := some "https://x/1",
          jid := some "1", location_name := none, location_location := none,
          content := none, updated_at := none }
        "acme" 0))
    "greenhouse::1" (by decide) (by decide) (by decide) (by decide) (by decide)

end Hirecre
